import Mathlib

set_option maxRecDepth 8000

/-!
Shallow embedding of the mercury-mapper super-partition manager
(`src/lib.rs`) and proofs of the specification claims.

Modelling conventions:
* Rust `String` values and raw device contents are modelled as `List Nat`
  of byte values (UTF-8 bytes; a byte is `< 256` in every reachable value).
* The block device is a `List Nat` of bytes; `seek`/`read` become
  `List.drop` and `write_all` becomes an in-place splice (`writeAt`).
* `u32`/`u64` become `Nat`; the one wrapping operation that matters
  (`self.generation += 1` on a `u32`) is taken modulo `2^32`.
* `HashMap<String, SubVolume>` becomes an association list with unique
  keys; `insert` overwrites an existing key in place, otherwise appends.
* `serde_json` serialization of the concrete `SuperPartition` shape is
  embedded as an explicit byte-level encoder (compact separators and
  string escaping exactly as `serde_json::to_string` produces)
  together with a recursive-descent
  parser for that grammar; `crc::CRC_32_CKSUM` is embedded bitwise.
  Field order and separators follow what the derived serde instances
  emit for these structs.
-/

/-- `Extent` from `src/lib.rs`: a half-open run of blocks
`[block_offset, block_offset + block_length)`.  Derived `Ord` in the
source is lexicographic on `(block_offset, block_length)`. -/
structure Extent where
  block_offset : Nat
  block_length : Nat
deriving DecidableEq

/-- `SubVolume` from `src/lib.rs`: extent list plus provenance strings
(modelled as byte lists). -/
structure SubVolume where
  extents : List Extent
  version : List Nat
  author : List Nat
  timedate : List Nat
deriving DecidableEq

/-- `SuperPartition` from `src/lib.rs`.  `subvols` models the
`HashMap<String, SubVolume>` as an association list with unique keys. -/
structure SuperPartition where
  device : List Nat
  generation : Nat
  subvols : List (List Nat × SubVolume)
deriving DecidableEq

/-- Bytes that Rust `str::trim` strips in the ASCII range
(tab, LF, VT, FF, CR, space). -/
def isWs (b : Nat) : Bool :=
  b = 9 || b = 10 || b = 11 || b = 12 || b = 13 || b = 32

/-- `BufRead::read_line`: consume bytes up to and including the first
newline (byte 10), or the whole rest of the input at end of file. -/
def readLine : List Nat → List Nat
  | [] => []
  | b :: bs => if b = 10 then [10] else b :: readLine bs

/-- `str::trim` on a byte string: drop leading and trailing whitespace. -/
def trimBytes (l : List Nat) : List Nat :=
  ((l.dropWhile isWs).reverse.dropWhile isWs).reverse

/-- `u32::to_be_bytes`. -/
def toBE4 (x : Nat) : List Nat :=
  [x / 16777216 % 256, x / 65536 % 256, x / 256 % 256, x % 256]

/-- `u32::from_be_bytes` as used in `load_metadata`. -/
def fromBE4 (c0 c1 c2 c3 : Nat) : Nat :=
  ((c0 * 256 + c1) * 256 + c2) * 256 + c3

/-- One shift-and-conditionally-xor step of the non-reflected CRC-32:
shift left, and xor in the polynomial `0x04C11DB7` when bit 31 was set. -/
def crcShift (c : Nat) : Nat :=
  if c &&& 2147483648 = 0 then (c * 2) % 4294967296
  else (c * 2) % 4294967296 ^^^ 79764919

/-- Iterate `crcShift` (eight times per input byte). -/
def crcShiftN : Nat → Nat → Nat
  | 0, c => c
  | n + 1, c => crcShiftN n (crcShift c)

/-- Absorb one byte into the CRC state (MSB-first, `refin = false`). -/
def crcByte (c b : Nat) : Nat :=
  crcShiftN 8 (c ^^^ (b % 256 * 16777216))

/-- Fold the CRC state over a byte list. -/
def crcFold : Nat → List Nat → Nat
  | c, [] => c
  | c, b :: bs => crcFold (crcByte c b) bs

/-- `crc::Crc::<u32>::new(&crc::CRC_32_CKSUM).checksum`: polynomial
`0x04C11DB7`, `init = 0`, no reflection, `xorout = 0xFFFFFFFF`. -/
def crc32cksum (bs : List Nat) : Nat :=
  crcFold 0 bs ^^^ 4294967295

/-- Byte string of the JSON key `device`. -/
def kDevice : List Nat := [100, 101, 118, 105, 99, 101]

/-- Byte string of the JSON key `generation`. -/
def kGeneration : List Nat := [103, 101, 110, 101, 114, 97, 116, 105, 111, 110]

/-- Byte string of the JSON key `subvols`. -/
def kSubvols : List Nat := [115, 117, 98, 118, 111, 108, 115]

/-- Byte string of the JSON key `extents`. -/
def kExtents : List Nat := [101, 120, 116, 101, 110, 116, 115]

/-- Byte string of the JSON key `version`. -/
def kVersion : List Nat := [118, 101, 114, 115, 105, 111, 110]

/-- Byte string of the JSON key `author`. -/
def kAuthor : List Nat := [97, 117, 116, 104, 111, 114]

/-- Byte string of the JSON key `timedate`. -/
def kTimedate : List Nat := [116, 105, 109, 101, 100, 97, 116, 101]

/-- Byte string of the JSON key `block_offset`. -/
def kBlockOffset : List Nat := [98, 108, 111, 99, 107, 95, 111, 102, 102, 115, 101, 116]

/-- Byte string of the JSON key `block_length`. -/
def kBlockLength : List Nat := [98, 108, 111, 99, 107, 95, 108, 101, 110, 103, 116, 104]

/-- Byte string of the reserved subvolume name `metadata`. -/
def kMetadata : List Nat := [109, 101, 116, 97, 100, 97, 116, 97]

/-- Lowercase hexadecimal digit, as `serde_json` prints `\u00XX` escapes. -/
def hexDigit (n : Nat) : Nat := if n < 10 then 48 + n else 87 + n

/-- `serde_json` string escaping of a single byte: `\"`, `\\`, the five
named control escapes, `\u00XX` for other control bytes, and every
other byte verbatim (UTF-8 passthrough). -/
def escapeByte (b : Nat) : List Nat :=
  if b = 34 then [92, 34]
  else if b = 92 then [92, 92]
  else if b = 8 then [92, 98]
  else if b = 9 then [92, 116]
  else if b = 10 then [92, 110]
  else if b = 12 then [92, 102]
  else if b = 13 then [92, 114]
  else if b < 32 then [92, 117, 48, 48, hexDigit (b / 16), hexDigit (b % 16)]
  else [b]

/-- Escape every byte of a string body. -/
def escBytes : List Nat → List Nat
  | [] => []
  | b :: bs => escapeByte b ++ escBytes bs

/-- Decimal digits of `n`, most significant first; structurally fueled
(the fuel argument only needs to be at least `n`). -/
def natToBytesAux : Nat → Nat → List Nat
  | 0, n => [48 + n % 10]
  | fuel + 1, n => if n < 10 then [48 + n] else natToBytesAux fuel (n / 10) ++ [48 + n % 10]

/-- JSON (serde) rendering of an unsigned integer. -/
def natToBytes (n : Nat) : List Nat := natToBytesAux n n

/-- JSON string literal `"..."` with escaping. -/
def encStr (s : List Nat) : List Nat := 34 :: (escBytes s ++ [34])

/-- A fixed object key followed by a colon: `"key":`. -/
def encKeyLit (k : List Nat) : List Nat := 34 :: (k ++ [34, 58])

/-- JSON object for one `Extent`, field order as in the struct. -/
def encExtent (e : Extent) : List Nat :=
  123 :: (encKeyLit kBlockOffset ++ natToBytes e.block_offset ++ [44] ++
    encKeyLit kBlockLength ++ natToBytes e.block_length ++ [125])

/-- Comma-separated bodies of a nonempty extent array. -/
def encExtentsBody : List Extent → List Nat
  | [] => []
  | [e] => encExtent e
  | e :: es => encExtent e ++ [44] ++ encExtentsBody es

/-- JSON array of extents. -/
def encExtList (l : List Extent) : List Nat := 91 :: (encExtentsBody l ++ [93])

/-- JSON object for one `SubVolume`, field order as in the struct. -/
def encSubVolume (v : SubVolume) : List Nat :=
  123 :: (encKeyLit kExtents ++ encExtList v.extents ++ [44] ++
    encKeyLit kVersion ++ encStr v.version ++ [44] ++
    encKeyLit kAuthor ++ encStr v.author ++ [44] ++
    encKeyLit kTimedate ++ encStr v.timedate ++ [125])

/-- Comma-separated entries of a nonempty subvolume map. -/
def encEntriesBody : List (List Nat × SubVolume) → List Nat
  | [] => []
  | [(k, v)] => encStr k ++ [58] ++ encSubVolume v
  | (k, v) :: es => encStr k ++ [58] ++ encSubVolume v ++ [44] ++ encEntriesBody es

/-- JSON object for the `subvols` map (entries in map iteration order). -/
def encSubvols (l : List (List Nat × SubVolume)) : List Nat :=
  match l with
  | [] => [123, 125]
  | _ => 123 :: (encEntriesBody l ++ [125])

/-- Bytes of the serialized `SuperPartition` before the generation
digits: open brace, the `device` entry and the `generation` key. -/
def jsonPre (device : List Nat) : List Nat :=
  123 :: (encKeyLit kDevice ++ encStr device ++ [44] ++ encKeyLit kGeneration)

/-- Bytes of the serialized `SuperPartition` after the generation
digits: comma, the `subvols` entry and the closing brace. -/
def jsonPost (subvols : List (List Nat × SubVolume)) : List Nat :=
  44 :: (encKeyLit kSubvols ++ encSubvols subvols ++ [125])

/-- `serde_json::to_string` of a `SuperPartition` (struct fields in
declaration order, compact separators). -/
def jsonEncodeSuper (sp : SuperPartition) : List Nat :=
  jsonPre sp.device ++ natToBytes sp.generation ++ jsonPost sp.subvols

/-- Expect an exact literal byte sequence, returning the remainder. -/
def parseLit : List Nat → List Nat → Option (List Nat)
  | [], bs => some bs
  | _ :: _, [] => none
  | l :: ls, b :: bs => if b = l then parseLit ls bs else none

/-- Is `b` an ASCII decimal digit? -/
def isDigit (b : Nat) : Bool := 48 ≤ b && b ≤ 57

/-- Maximal leading run of decimal digits, plus the remainder. -/
def parseDigits : List Nat → List Nat × List Nat
  | [] => ([], [])
  | b :: bs =>
    if isDigit b then
      let p := parseDigits bs
      (b :: p.1, p.2)
    else ([], b :: bs)

/-- Fold decimal digit bytes into a number. -/
def digitsVal (acc : Nat) (ds : List Nat) : Nat :=
  ds.foldl (fun a d => a * 10 + (d - 48)) acc

/-- Parse an unsigned decimal integer (at least one digit). -/
def parseNat (bs : List Nat) : Option (Nat × List Nat) :=
  match parseDigits bs with
  | ([], _) => none
  | (d :: ds, rest) => some (digitsVal 0 (d :: ds), rest)

/-- Value of one hexadecimal digit byte. -/
def parseHex (b : Nat) : Option Nat :=
  if 48 ≤ b ∧ b ≤ 57 then some (b - 48)
  else if 97 ≤ b ∧ b ≤ 102 then some (b - 87)
  else if 65 ≤ b ∧ b ≤ 70 then some (b - 55)
  else none

/-- Decode one named string escape character, if it is one. -/
def unescapeChar (e : Nat) : Option (List Nat) :=
  if e = 34 then some [34]
  else if e = 92 then some [92]
  else if e = 47 then some [47]
  else if e = 98 then some [8]
  else if e = 116 then some [9]
  else if e = 110 then some [10]
  else if e = 102 then some [12]
  else if e = 114 then some [13]
  else none

/-- Parse the body of a JSON string up to the closing quote.  Fueled
with one unit per produced character (the escape subset handled is the
one the encoder emits; `\uXXXX` is accepted for ASCII code points). -/
def parseStrBody : Nat → List Nat → Option (List Nat × List Nat)
  | 0, _ => none
  | _ + 1, [] => none
  | f + 1, b :: bs =>
    if b = 34 then some ([], bs)
    else if b = 92 then
      match bs with
      | [] => none
      | e :: bs2 =>
        match unescapeChar e with
        | some cs => (parseStrBody f bs2).map (fun p => (cs ++ p.1, p.2))
        | none =>
          if e = 117 then
            match bs2 with
            | h1 :: h2 :: h3 :: h4 :: bs3 =>
              match parseHex h1, parseHex h2, parseHex h3, parseHex h4 with
              | some v1, some v2, some v3, some v4 =>
                let v := ((v1 * 16 + v2) * 16 + v3) * 16 + v4
                if v < 128 then (parseStrBody f bs3).map (fun p => (v :: p.1, p.2))
                else none
              | _, _, _, _ => none
            | _ => none
          else none
    else (parseStrBody f bs).map (fun p => (b :: p.1, p.2))

/-- Parse a JSON string literal `"..."`. -/
def parseJsonString : List Nat → Option (List Nat × List Nat)
  | 34 :: rest => parseStrBody (rest.length + 1) rest
  | _ => none

/-- Parse one `Extent` object. -/
def parseExtent (bs : List Nat) : Option (Extent × List Nat) :=
  match parseLit (123 :: encKeyLit kBlockOffset) bs with
  | none => none
  | some r1 =>
    match parseNat r1 with
    | none => none
    | some (off, r2) =>
      match parseLit (44 :: encKeyLit kBlockLength) r2 with
      | none => none
      | some r3 =>
        match parseNat r3 with
        | none => none
        | some (len, r4) =>
          match parseLit [125] r4 with
          | none => none
          | some r5 => some (⟨off, len⟩, r5)

/-- Parse the elements of a nonempty extent array after the opening
bracket; fueled with one unit per element. -/
def parseExtentsLoop : Nat → List Nat → Option (List Extent × List Nat)
  | 0, _ => none
  | f + 1, bs =>
    match parseExtent bs with
    | none => none
    | some (e, r) =>
      match r with
      | 44 :: r2 => (parseExtentsLoop f r2).map (fun p => (e :: p.1, p.2))
      | 93 :: r2 => some ([e], r2)
      | _ => none

/-- Parse a JSON array of extents. -/
def parseExtents (bs : List Nat) : Option (List Extent × List Nat) :=
  match bs with
  | 91 :: 93 :: r => some ([], r)
  | 91 :: rest => parseExtentsLoop (rest.length + 1) rest
  | _ => none

/-- Parse one `SubVolume` object. -/
def parseSubVolume (bs : List Nat) : Option (SubVolume × List Nat) :=
  match parseLit (123 :: encKeyLit kExtents) bs with
  | none => none
  | some r1 =>
    match parseExtents r1 with
    | none => none
    | some (es, r2) =>
      match parseLit (44 :: encKeyLit kVersion) r2 with
      | none => none
      | some r3 =>
        match parseJsonString r3 with
        | none => none
        | some (ver, r4) =>
          match parseLit (44 :: encKeyLit kAuthor) r4 with
          | none => none
          | some r5 =>
            match parseJsonString r5 with
            | none => none
            | some (au, r6) =>
              match parseLit (44 :: encKeyLit kTimedate) r6 with
              | none => none
              | some r7 =>
                match parseJsonString r7 with
                | none => none
                | some (td, r8) =>
                  match parseLit [125] r8 with
                  | none => none
                  | some r9 => some (⟨es, ver, au, td⟩, r9)

/-- Parse entries of a nonempty subvolume map after the opening brace;
fueled with one unit per entry. -/
def parseEntriesLoop : Nat → List Nat → Option (List (List Nat × SubVolume) × List Nat)
  | 0, _ => none
  | f + 1, bs =>
    match parseJsonString bs with
    | none => none
    | some (k, r1) =>
      match parseLit [58] r1 with
      | none => none
      | some r2 =>
        match parseSubVolume r2 with
        | none => none
        | some (v, r3) =>
          match r3 with
          | 44 :: r4 => (parseEntriesLoop f r4).map (fun p => ((k, v) :: p.1, p.2))
          | 125 :: r4 => some ([(k, v)], r4)
          | _ => none

/-- Parse the JSON object for the subvolume map. -/
def parseSubvols (bs : List Nat) : Option (List (List Nat × SubVolume) × List Nat) :=
  match bs with
  | 123 :: 125 :: r => some ([], r)
  | 123 :: rest => parseEntriesLoop (rest.length + 1) rest
  | _ => none

/-- Parse a serialized `SuperPartition` object. -/
def parseSuper (bs : List Nat) : Option (SuperPartition × List Nat) :=
  match parseLit (123 :: encKeyLit kDevice) bs with
  | none => none
  | some r1 =>
    match parseJsonString r1 with
    | none => none
    | some (dev, r2) =>
      match parseLit (44 :: encKeyLit kGeneration) r2 with
      | none => none
      | some r3 =>
        match parseNat r3 with
        | none => none
        | some (gen, r4) =>
          match parseLit (44 :: encKeyLit kSubvols) r4 with
          | none => none
          | some r5 =>
            match parseSubvols r5 with
            | none => none
            | some (svs, r6) =>
              match parseLit [125] r6 with
              | none => none
              | some r7 => some (⟨dev, gen, svs⟩, r7)

/-- `serde_json::from_str::<SuperPartition>` on a line: parse one value
and require only whitespace after it. -/
def jsonDecodeSuper (bs : List Nat) : Option SuperPartition :=
  match parseSuper bs with
  | none => none
  | some (sp, rest) => if rest.dropWhile isWs = [] then some sp else none

/-- The next byte (if any) is not a decimal digit. -/
def headNotDigit : List Nat → Bool
  | [] => true
  | b :: _ => !isDigit b

/-- Error cases of `load_metadata` (`io::Error` values in the source):
a short or failed read, a CRC mismatch, or an unparsable JSON body. -/
inductive MetaErr where
  | ioShort
  | badCrc
  | badJson
deriving DecidableEq

/-- `load_metadata` from `src/lib.rs`: read a 4-byte big-endian CRC,
read one line, recompute CRC-32/CKSUM over the trimmed line and compare
with the stored value, then parse the JSON body.  (The source parses the
untrimmed line; `serde_json::from_str` skips leading and trailing
whitespace, so parsing the trimmed line is equivalent.) -/
def load_metadataE (bs : List Nat) : Except MetaErr SuperPartition :=
  match bs with
  | c0 :: c1 :: c2 :: c3 :: rest =>
    let disk_crc := fromBE4 c0 c1 c2 c3
    let trimmed := trimBytes (readLine rest)
    if disk_crc = crc32cksum trimmed then
      match jsonDecodeSuper trimmed with
      | some sp => .ok sp
      | none => .error .badJson
    else .error .badCrc
  | _ => .error .ioShort

/-- `load_metadata(...).ok()` as used by `load_both_metadata`. -/
def loadOpt (bs : List Nat) : Option SuperPartition :=
  (load_metadataE bs).toOption

/-- The on-disk slot frame written by `commit`: big-endian CRC over the
serialized line, the line itself, a newline and a NUL terminator. -/
def encodeFrame (sp : SuperPartition) : List Nat :=
  toBE4 (crc32cksum (jsonEncodeSuper sp)) ++ jsonEncodeSuper sp ++ [10, 0]

/-- No byte of the list is a newline. -/
def NoNL (l : List Nat) : Prop := ∀ b ∈ l, b ≠ 10

instance noNLDecidable (l : List Nat) : Decidable (NoNL l) :=
  inferInstanceAs (Decidable (∀ b ∈ l, b ≠ 10))

/-- Read the device from byte offset `off` to the end (`seek` + reads). -/
def readAt (d : List Nat) (off : Nat) : List Nat := d.drop off

/-- Write `bs` into the device at byte offset `off`
(`seek(Start(off))` followed by `write_all`). -/
def writeAt (d : List Nat) (off : Nat) (bs : List Nat) : List Nat :=
  d.take off ++ (bs ++ d.drop (off + bs.length))

/-- `get_io_size` from `src/lib.rs`: a fixed 1 MiB placeholder. -/
def get_io_size (_device : List Nat) : Nat := 1024 * 1024

/-- `load_both_metadata` from `src/lib.rs`: decode the slot at block
`total_blocks - 1` (into the first component) and the slot at block
`total_blocks - 2` (into the second component); decode failures become
`none` via `.ok()`.  The seeks cannot fail in the pure disk model, so
the surrounding `Result` is always `Ok`. -/
def load_both_metadata (d : List Nat) (iosize : Nat) :
    Option SuperPartition × Option SuperPartition :=
  let device_size_blocks := d.length / iosize
  (loadOpt (readAt d ((device_size_blocks - 1) * iosize)),
   loadOpt (readAt d ((device_size_blocks - 2) * iosize)))

/-- The `md_block` match in `commit` (`src/lib.rs` lines 277-288): which
slot to write, as a distance in blocks from the end of the device
(`1` = last block, `2` = second-to-last block). -/
def chooseSlot : Option SuperPartition → Option SuperPartition → Nat
  | some _, none => 2
  | none, some _ => 1
  | none, none => 1
  | some m1, some m2 => if m1.generation < m2.generation then 1 else 2

/-- `self.generation += 1` (a `u32` add, hence modulo `2^32`). -/
def bumpGen (sp : SuperPartition) : SuperPartition :=
  { sp with generation := (sp.generation + 1) % 4294967296 }

/-- Error kinds surfaced by the registry operations. -/
inductive EKind where
  /-- `ErrorKind::NotFound` ("no valid metadata"). -/
  | notFound
  /-- `ErrorKind::AlreadyExists` (subvolume name collision). -/
  | alreadyExists
  /-- `ErrorKind::OutOfMemory` in the source; the spec's OutOfSpaceError. -/
  | outOfSpace
  /-- A propagated `io::Error` from seek/write/flush. -/
  | ioFail
  /-- The `assert!(json.len() + 6 < iosize)` in `commit` firing. -/
  | sizePanic
deriving DecidableEq

/-- `SuperPartition::commit` with the I/O size passed explicitly (the
source obtains it from `get_io_size`): load both slots, pick the target
slot, increment the generation, serialize, and write the frame at
`(total_blocks - md_block) * iosize`.  Returns the new device contents
and the new in-memory value; `none` models the `assert!` on the frame
size firing. -/
def commitIo (d : List Nat) (iosize : Nat) (sp : SuperPartition) :
    Option (List Nat × SuperPartition) :=
  let device_size_blocks := d.length / iosize
  let m := load_both_metadata d iosize
  let md_block := chooseSlot m.1 m.2
  let sp2 := bumpGen sp
  let json := jsonEncodeSuper sp2
  if json.length + 6 < iosize then
    some (writeAt d ((device_size_blocks - md_block) * iosize) (encodeFrame sp2), sp2)
  else none

/-- `SuperPartition::commit` exactly as in the source, with the I/O size
supplied by `get_io_size`. -/
def commit (d : List Nat) (sp : SuperPartition) : Option (List Nat × SuperPartition) :=
  commitIo d (get_io_size sp.device) sp

/-- The byte offset `commit` writes to on device `d`. -/
def commitTargetOff (d : List Nat) (iosize : Nat) : Nat :=
  (d.length / iosize - chooseSlot (load_both_metadata d iosize).1
    (load_both_metadata d iosize).2) * iosize

/-- Iterate `commit` `n` times, recording for each commit the target
block index and the generation written. -/
def commitSeq (iosize : Nat) : Nat → List Nat → SuperPartition →
    Option (List Nat × SuperPartition × List (Nat × Nat))
  | 0, d, sp => some (d, sp, [])
  | n + 1, d, sp =>
    match commitIo d iosize sp with
    | none => none
    | some (d2, sp2) =>
      match commitSeq iosize n d2 sp2 with
      | none => none
      | some (d3, sp3, ts) =>
        some (d3, sp3,
          (d.length / iosize - chooseSlot (load_both_metadata d iosize).1
            (load_both_metadata d iosize).2, sp2.generation) :: ts)

/-- The steps of `commit` that touch the device, in program order; used
to model injected `io::Error` failures. -/
inductive CommitStep where
  | openDev
  | loadMeta
  | seekSlot
  | writeCrc
  | writeJson
  | writeTerm
  | syncAll
deriving DecidableEq

/-- `SuperPartition::commit` with an injected I/O failure at step
`fault` (or `none` for no failure).  Mirrors the program order of the
source: open and `load_both_metadata` fail before the generation is
incremented; the seek to the target slot, the three writes and
`sync_all` fail after `self.generation += 1` has executed.  The first
component is the in-memory `SuperPartition` when `commit` returns. -/
def commitFaulty (d : List Nat) (iosize : Nat) (sp : SuperPartition)
    (fault : Option CommitStep) : SuperPartition × Except EKind (List Nat) :=
  if fault = some .openDev then (sp, .error .ioFail)
  else if fault = some .loadMeta then (sp, .error .ioFail)
  else
    let device_size_blocks := d.length / iosize
    let m := load_both_metadata d iosize
    let md_block := chooseSlot m.1 m.2
    let sp2 := bumpGen sp
    let json := jsonEncodeSuper sp2
    if json.length + 6 < iosize then
      if fault = some .seekSlot ∨ fault = some .writeCrc ∨ fault = some .writeJson ∨
          fault = some .writeTerm ∨ fault = some .syncAll then
        (sp2, .error .ioFail)
      else
        (sp2, .ok (writeAt d ((device_size_blocks - md_block) * iosize) (encodeFrame sp2)))
    else (sp2, .error .sizePanic)

/-- The slot-resolution match in `SuperPartition::open`
(`src/lib.rs` lines 81-92). -/
def openCore : Option SuperPartition → Option SuperPartition →
    Except EKind SuperPartition
  | some m, none => .ok m
  | none, some m => .ok m
  | none, none => .error .notFound
  | some m1, some m2 => if m1.generation > m2.generation then .ok m1 else .ok m2

/-- `HashMap::contains_key` on the association-list model. -/
def containsKey : List (List Nat × SubVolume) → List Nat → Bool
  | [], _ => false
  | (k, _) :: t, n => if k = n then true else containsKey t n

/-- `HashMap::get`-style lookup on the association-list model. -/
def lookupA : List (List Nat × SubVolume) → List Nat → Option SubVolume
  | [], _ => none
  | (k, v) :: t, n => if k = n then some v else lookupA t n

/-- `HashMap::insert` on the association-list model: overwrite an
existing key in place, otherwise append. -/
def insertA (l : List (List Nat × SubVolume)) (key : List Nat) (v : SubVolume) :
    List (List Nat × SubVolume) :=
  match l with
  | [] => [(key, v)]
  | (k2, v2) :: t => if k2 = key then (key, v) :: t else (k2, v2) :: insertA t key v

/-- `SuperPartition::adopt` with device size and I/O size as explicit
parameters (the source derives them from the file and `get_io_size`).
Only reads the device (the file is opened read-only), so the device
contents are not an output. -/
def adopt (device : List Nat) (deviceSize iosize : Nat) (name : List Nat)
    (original_size : Nat) : Except EKind SuperPartition :=
  let device_size_blocks := deviceSize / iosize
  let original_size_blocks := (original_size + iosize - 1) / iosize
  if original_size_blocks + 2 > device_size_blocks then .error .outOfSpace
  else
    let svm : SubVolume := ⟨[⟨device_size_blocks - 2, 2⟩], [], [], []⟩
    let svn : SubVolume := ⟨[⟨0, original_size_blocks⟩], [], [], []⟩
    .ok ⟨device, 1, insertA (insertA [] kMetadata svm) name svn⟩

/-- The derived lexicographic `Ord` on `Extent`
(`block_offset`, then `block_length`), as a `Bool` relation for sorting. -/
def extLe (a b : Extent) : Bool :=
  decide (a.block_offset < b.block_offset) ||
    (decide (a.block_offset = b.block_offset) && decide (a.block_length ≤ b.block_length))

/-- All extents of all subvolumes in map iteration order (the
`for (_k, v) in &self.subvols` loop before sorting). -/
def allExtentsRaw : List (List Nat × SubVolume) → List Extent
  | [] => []
  | (_, v) :: t => v.extents ++ allExtentsRaw t

/-- `SuperPartition::get_all_extents`: every subvolume's extents,
sorted by the derived `Ord`. -/
def get_all_extents (sp : SuperPartition) : List Extent :=
  (allExtentsRaw sp.subvols).mergeSort extLe

/-- The allocation loop of `create_subvol` (`src/lib.rs` lines 173-188):
walk consecutive pairs of the sorted extent list, carve
`min(hole_len, size_blocks)` from each gap, and stop when the remaining
need hits zero.  Returns the allocated extents and the remaining need. -/
def allocLoop : List (Extent × Extent) → Nat → List Extent → List Extent × Nat
  | [], need, acc => (acc, need)
  | (a, b) :: rest, need, acc =>
    let hole_start := a.block_offset + a.block_length
    let hole_len := b.block_offset - hole_start
    let e : Extent := ⟨hole_start, min hole_len need⟩
    let need2 := need - e.block_length
    let acc2 := acc ++ [e]
    if need2 = 0 then (acc2, 0) else allocLoop rest need2 acc2

/-- `SuperPartition::create_subvol` up to and including the map insert
(`src/lib.rs` lines 163-200); the subsequent `commit` and device-mapper
activation are modelled separately.  Returns the (possibly unchanged)
in-memory state together with the result, mirroring `&mut self` plus
`Result`. -/
def create_subvol (sp : SuperPartition) (name : List Nat) (size iosize : Nat) :
    SuperPartition × Except EKind SubVolume :=
  if containsKey sp.subvols name then (sp, .error .alreadyExists)
  else
    let size_blocks := (size + iosize - 1) / iosize
    let all := get_all_extents sp
    let p := allocLoop (all.zip all.tail) size_blocks []
    if 0 < p.2 then (sp, .error .outOfSpace)
    else
      let sv : SubVolume := ⟨p.1, [], [], []⟩
      ({ sp with subvols := insertA sp.subvols name sv }, .ok sv)

/-- `SuperPartition::delete_subvol`'s mutation of the in-memory map:
`self.subvols.retain(|_k, v| *v != sv)` — every entry whose full value
equals `sv` is removed, matching by value, not by name. -/
def delete_subvol (sp : SuperPartition) (sv : SubVolume) : SuperPartition :=
  { sp with subvols := sp.subvols.filter (fun kv => decide (kv.2 ≠ sv)) }

/-- One past the last block of an extent. -/
def extEnd (e : Extent) : Nat := e.block_offset + e.block_length

/-- Block `x` lies inside extent `e`. -/
def inExt (e : Extent) (x : Nat) : Prop :=
  e.block_offset ≤ x ∧ x < extEnd e

/-- Two extents overlap: some block lies in both. -/
def ExtOverlap (a b : Extent) : Prop := ∃ x, inExt a x ∧ inExt b x

/-- `a` ends at or before `b` starts. -/
def SepR (a b : Extent) : Prop := extEnd a ≤ b.block_offset

/-- Two extents are separated (in either order). -/
def ExtSep (a b : Extent) : Prop := SepR a b ∨ SepR b a

/-- Total length in blocks of a list of extents. -/
def sumLen (l : List Extent) : Nat := (l.map Extent.block_length).sum

/-- The start bound used by the allocation-loop invariant: everything
the loop can still allocate begins at or after the head's end. -/
def sHeadEnd : List Extent → Nat
  | [] => 0
  | x :: _ => extEnd x

/-- The global no-overlap invariant, in its strong pairwise-separation
form: any two extent occurrences across all subvolumes are separated. -/
def SepInv (sp : SuperPartition) : Prop :=
  List.Pairwise ExtSep (allExtentsRaw sp.subvols)

/-- States reachable through the registry operations, starting from a
successful `adopt`: `create_subvol` (whether it succeeds or fails),
`delete_subvol`, and the in-memory effect of `commit`. -/
inductive Reach : SuperPartition → Prop where
  | adoptStep : ∀ device deviceSize iosize name original_size sp,
      adopt device deviceSize iosize name original_size = .ok sp → Reach sp
  | createStep : ∀ sp name size iosize, Reach sp →
      Reach (create_subvol sp name size iosize).1
  | deleteStep : ∀ sp sv, Reach sp → Reach (delete_subvol sp sv)
  | commitStep : ∀ sp, Reach sp → Reach (bumpGen sp)

/-- Slot `off` of device `d` holds the frame of `sp` (possibly followed
by stale bytes). -/
def SlotIs (d : List Nat) (off : Nat) (sp : SuperPartition) : Prop :=
  ∃ junk, readAt d off = encodeFrame sp ++ junk

instance sepRDecidable (a b : Extent) : Decidable (SepR a b) :=
  inferInstanceAs (Decidable (extEnd a ≤ b.block_offset))

instance extSepDecidable (a b : Extent) : Decidable (ExtSep a b) :=
  inferInstanceAs (Decidable (SepR a b ∨ SepR b a))

instance sepInvDecidable (sp : SuperPartition) : Decidable (SepInv sp) :=
  inferInstanceAs (Decidable (List.Pairwise ExtSep (allExtentsRaw sp.subvols)))

/-- The target-slot rule as stated by the amended claim: with no valid
slot the target is the LAST block (`md_block = 1`); with exactly one
valid slot the target is the other one; with two valid slots the target
is the one holding the smaller generation (a tie goes to the
second-to-last block). -/
def targetSlotSpec : Option SuperPartition → Option SuperPartition → Nat
  | none, none => 1
  | some _, none => 2
  | none, some _ => 1
  | some a, some b => if a.generation < b.generation then 1 else 2

/-- Zero-filled four-block device with 64-byte blocks. -/
def dZero4 : List Nat := List.replicate 256 0

/-- Minimal in-memory partition (no subvolumes). -/
def spEmpty : SuperPartition := ⟨[], 1, []⟩

/-- Byte string of the subvolume name `data`. -/
def nData : List Nat := [100, 97, 116, 97]

def svMetaW : SubVolume := ⟨[⟨0, 2⟩], [], [], []⟩

def svDataW : SubVolume := ⟨[⟨4, 3⟩], [], [], []⟩

/-- A two-subvolume partition with a two-block hole at blocks 2-3. -/
def spW2 : SuperPartition := ⟨[], 1, [([107], svMetaW), ([108], svDataW)]⟩

def nW2 : List Nat := [110]

def svW2 : SubVolume := ⟨[⟨2, 2⟩], [], [], []⟩

def spW2ok : SuperPartition := ⟨[], 1, [([107], svMetaW), ([108], svDataW), (nW2, svW2)]⟩

/-- Generation-5 and generation-3 values for the open-resolution witness. -/
def spG5 : SuperPartition := ⟨[], 5, []⟩

def spG3 : SuperPartition := ⟨[], 3, []⟩

def spG4a : SuperPartition := ⟨[100], 4, []⟩

def spG4b : SuperPartition := ⟨[101], 4, []⟩

/-- Starting state for the C6 counterexample: fresh in-memory value,
generation 1. -/
def spC6 : SuperPartition := ⟨[], 1, []⟩

/-- Starting state for the C6 witness. -/
def spW6 : SuperPartition := ⟨[], 1, []⟩

/-- The duplicated value for the C7 witness. -/
def svD7 : SubVolume := ⟨[⟨0, 1⟩], [], [], []⟩

/-- Two distinct names bound to identical values. -/
def spW7 : SuperPartition := ⟨[], 1, [([49], svD7), ([50], svD7)]⟩

/-- A state produced by `adopt` for the C9 witness. -/
def spR9 : SuperPartition :=
  ⟨[], 1, [(kMetadata, ⟨[⟨8, 2⟩], [], [], []⟩), ([113], ⟨[⟨0, 8⟩], [], [], []⟩)]⟩

/-- In-memory state for the C10 witness. -/
def spW10 : SuperPartition := ⟨[], 1, []⟩

theorem crcShift_lt (c : Nat) : crcShift c < 4294967296 := by
  unfold crcShift
  have h : c * 2 % 4294967296 < 2 ^ 32 := Nat.mod_lt _ (by decide)
  have h2 : (79764919 : Nat) < 2 ^ 32 := by decide
  split
  · exact h
  · exact Nat.xor_lt_two_pow h h2

theorem crcShiftN_lt (n : Nat) (c : Nat) (h : c < 4294967296) :
    crcShiftN n c < 4294967296 := by
  induction n generalizing c with
  | zero => exact h
  | succ k ih => exact ih _ (crcShift_lt c)

theorem crcByte_lt (c b : Nat) (h : c < 4294967296) :
    crcByte c b < 4294967296 := by
  unfold crcByte
  apply crcShiftN_lt
  have hb : b % 256 * 16777216 < 2 ^ 32 := by
    have : b % 256 < 256 := Nat.mod_lt _ (by decide)
    omega
  exact Nat.xor_lt_two_pow h hb

theorem crcFold_lt (bs : List Nat) (c : Nat) (h : c < 4294967296) :
    crcFold c bs < 4294967296 := by
  induction bs generalizing c with
  | nil => exact h
  | cons b t ih => exact ih _ (crcByte_lt c b h)

theorem crc32cksum_lt (bs : List Nat) : crc32cksum bs < 4294967296 := by
  unfold crc32cksum
  have h1 : crcFold 0 bs < 2 ^ 32 := crcFold_lt bs 0 (by decide)
  have h2 : (4294967295 : Nat) < 2 ^ 32 := by decide
  exact Nat.xor_lt_two_pow h1 h2

theorem fromBE4_toBE4 (x : Nat) (h : x < 4294967296) :
    fromBE4 (x / 16777216 % 256) (x / 65536 % 256) (x / 256 % 256) (x % 256) = x := by
  unfold fromBE4
  omega

theorem parseLit_append (lit rest : List Nat) :
    parseLit lit (lit ++ rest) = some rest := by
  induction lit with
  | nil => rfl
  | cons l ls ih => simpa [parseLit] using ih

theorem natToBytesAux_digits (f n : Nat) :
    ∀ b ∈ natToBytesAux f n, 48 ≤ b ∧ b ≤ 57 := by
  induction f generalizing n with
  | zero =>
    intro b hb
    simp only [natToBytesAux, List.mem_singleton] at hb
    subst hb
    have := Nat.mod_lt n (y := 10) (by decide)
    omega
  | succ f ih =>
    intro b hb
    simp only [natToBytesAux] at hb
    split at hb
    · simp only [List.mem_singleton] at hb
      omega
    · rcases List.mem_append.mp hb with h | h
      · exact ih _ b h
      · simp only [List.mem_singleton] at h
        have := Nat.mod_lt n (y := 10) (by decide)
        omega

theorem natToBytesAux_fuel (f g n : Nat) (hf : n ≤ f) (hg : n ≤ g) :
    natToBytesAux f n = natToBytesAux g n := by
  induction n using Nat.strong_induction_on generalizing f g with
  | _ n ih =>
    match f, g with
    | 0, 0 => rfl
    | 0, g + 1 =>
      have hn : n = 0 := Nat.le_zero.mp hf
      subst hn
      rfl
    | f + 1, 0 =>
      have hn : n = 0 := Nat.le_zero.mp hg
      subst hn
      rfl
    | f + 1, g + 1 =>
      simp only [natToBytesAux]
      split
      · rfl
      · have hlt : n / 10 < n := Nat.div_lt_self (by omega) (by decide)
        rw [ih (n / 10) hlt f g (by omega) (by omega)]

theorem digitsVal_append (ds : List Nat) (d acc : Nat) :
    digitsVal acc (ds ++ [d]) = digitsVal acc ds * 10 + (d - 48) := by
  unfold digitsVal
  rw [List.foldl_append]
  rfl

theorem digitsVal_natToBytesAux (f n : Nat) (hf : n ≤ f) :
    digitsVal 0 (natToBytesAux f n) = n := by
  induction n using Nat.strong_induction_on generalizing f with
  | _ n ih =>
    match f with
    | 0 =>
      have hn : n = 0 := Nat.le_zero.mp hf
      subst hn
      rfl
    | f + 1 =>
      simp only [natToBytesAux]
      split
      · simp only [digitsVal, List.foldl_cons, List.foldl_nil]
        omega
      · have hlt : n / 10 < n := Nat.div_lt_self (by omega) (by decide)
        rw [digitsVal_append, ih (n / 10) hlt f (by omega)]
        omega

theorem parseDigits_append (ds rest : List Nat)
    (hds : ∀ b ∈ ds, 48 ≤ b ∧ b ≤ 57) (hrest : headNotDigit rest = true) :
    parseDigits (ds ++ rest) = (ds, rest) := by
  induction ds with
  | nil =>
    cases rest with
    | nil => rfl
    | cons b bs =>
      simp only [headNotDigit, Bool.not_eq_true'] at hrest
      simp [parseDigits, hrest]
  | cons d ds ih =>
    have hd := hds d (by simp)
    have hdig : isDigit d = true := by
      unfold isDigit
      simp only [Bool.and_eq_true, decide_eq_true_eq]
      omega
    simp only [List.cons_append, parseDigits, hdig, if_true, List.append_eq]
    rw [ih (fun b hb => hds b (by simp [hb]))]

theorem natToBytes_ne_nil (n : Nat) : natToBytes n ≠ [] := by
  unfold natToBytes
  cases hn : n with
  | zero => simp [natToBytesAux]
  | succ m =>
    simp only [natToBytesAux]
    split
    · simp
    · simp

theorem parseNat_natToBytes (n : Nat) (rest : List Nat)
    (hrest : headNotDigit rest = true) :
    parseNat (natToBytes n ++ rest) = some (n, rest) := by
  unfold parseNat natToBytes
  rw [parseDigits_append _ _ (natToBytesAux_digits n n) hrest]
  obtain ⟨d, ds, hd⟩ :=
    List.exists_cons_of_ne_nil (show natToBytesAux n n ≠ [] from natToBytes_ne_nil n)
  rw [hd]
  dsimp only
  rw [← hd, digitsVal_natToBytesAux n n (Nat.le_refl n)]

theorem parseHex_hexDigit : ∀ n, n < 16 → parseHex (hexDigit n) = some n := by
  decide

theorem parseStrBody_escape (b f : Nat) (tail : List Nat) :
    parseStrBody (f + 1) (escapeByte b ++ tail) =
      (parseStrBody f tail).map (fun p => (b :: p.1, p.2)) := by
  by_cases h34 : b = 34
  · subst h34; rfl
  by_cases h92 : b = 92
  · subst h92; rfl
  by_cases h8 : b = 8
  · subst h8; rfl
  by_cases h9 : b = 9
  · subst h9; rfl
  by_cases h10 : b = 10
  · subst h10; rfl
  by_cases h12 : b = 12
  · subst h12; rfl
  by_cases h13 : b = 13
  · subst h13; rfl
  by_cases hlt : b < 32
  · have h1 : parseHex (hexDigit (b / 16)) = some (b / 16) :=
      parseHex_hexDigit _ (by omega)
    have h2 : parseHex (hexDigit (b % 16)) = some (b % 16) :=
      parseHex_hexDigit _ (by omega)
    have hb : ((0 * 16 + 0) * 16 + b / 16) * 16 + b % 16 = b := by omega
    have hb128 : b < 128 := by omega
    simp only [escapeByte, if_neg h34, if_neg h92, if_neg h8, if_neg h9, if_neg h10,
      if_neg h12, if_neg h13, if_pos hlt, List.cons_append, List.nil_append]
    have h0 : parseHex 48 = some 0 := rfl
    have hb2 : b / 16 * 16 + b % 16 = b := by omega
    simp [parseStrBody, unescapeChar, h0, h1, h2, hb, hb2, hb128]
  · simp only [escapeByte, if_neg h34, if_neg h92, if_neg h8, if_neg h9, if_neg h10,
      if_neg h12, if_neg h13, if_neg hlt, List.cons_append, List.nil_append]
    simp only [parseStrBody, if_neg h34, if_neg h92]

theorem parseStrBody_round (s : List Nat) (f : Nat) (rest : List Nat)
    (hf : s.length < f) :
    parseStrBody f (escBytes s ++ 34 :: rest) = some (s, rest) := by
  induction s generalizing f with
  | nil =>
    match f, hf with
    | f + 1, _ => rfl
  | cons b s ih =>
    match f, hf with
    | f + 1, hf =>
      have : escBytes (b :: s) ++ 34 :: rest = escapeByte b ++ (escBytes s ++ 34 :: rest) := by
        simp [escBytes]
      rw [this, parseStrBody_escape, ih f (by simpa using Nat.lt_of_succ_lt_succ hf)]
      rfl

theorem escBytes_length_ge (s : List Nat) : s.length ≤ (escBytes s).length := by
  induction s with
  | nil => simp [escBytes]
  | cons b t ih =>
    have hb : 1 ≤ (escapeByte b).length := by
      unfold escapeByte
      repeat' split
      all_goals simp
    simp only [escBytes, List.length_append, List.length_cons]
    omega

theorem parseJsonString_encStr (s rest : List Nat) :
    parseJsonString (encStr s ++ rest) = some (s, rest) := by
  have hshape : encStr s ++ rest = 34 :: (escBytes s ++ 34 :: rest) := by
    simp [encStr]
  rw [hshape]
  show parseStrBody ((escBytes s ++ 34 :: rest).length + 1) (escBytes s ++ 34 :: rest) = _
  apply parseStrBody_round
  have := escBytes_length_ge s
  simp only [List.length_append, List.length_cons]
  omega

theorem parseLit_cons_append (a : Nat) (ls rest : List Nat) :
    parseLit (a :: ls) (a :: (ls ++ rest)) = some rest := by
  rw [← List.cons_append]
  exact parseLit_append _ _

theorem parseExtent_round (e : Extent) (rest : List Nat) :
    parseExtent (encExtent e ++ rest) = some (e, rest) := by
  unfold parseExtent
  have hshape : encExtent e ++ rest =
      123 :: (encKeyLit kBlockOffset ++ (natToBytes e.block_offset ++
        (44 :: (encKeyLit kBlockLength ++ (natToBytes e.block_length ++ (125 :: rest)))))) := by
    simp [encExtent]
  rw [hshape, parseLit_cons_append]
  dsimp only
  rw [parseNat_natToBytes _ _ (by rfl)]
  dsimp only
  rw [parseLit_cons_append]
  dsimp only
  rw [parseNat_natToBytes _ _ (by rfl)]
  dsimp only
  have h125 : parseLit [125] (125 :: rest) = some rest := by
    simpa using parseLit_cons_append 125 [] rest
  rw [h125]

theorem encExtent_cons_shape (e : Extent) :
    ∃ t, encExtent e = 123 :: t := ⟨_, rfl⟩

theorem encExtentsBody_cons_shape (e : Extent) (es : List Extent) :
    ∃ t, encExtentsBody (e :: es) = 123 :: t := by
  cases es with
  | nil => exact ⟨_, rfl⟩
  | cons e2 es2 => exact ⟨_, rfl⟩

theorem encExtentsBody_length_ge (l : List Extent) :
    l.length ≤ (encExtentsBody l).length := by
  induction l with
  | nil => simp [encExtentsBody]
  | cons e es ih =>
    cases es with
    | nil => simp [encExtentsBody, encExtent]
    | cons e2 es2 =>
      have : encExtentsBody (e :: e2 :: es2) = encExtent e ++ [44] ++ encExtentsBody (e2 :: es2) := rfl
      rw [this]
      simp only [List.length_append, List.length_cons, encExtent]
      simp only [List.length_cons] at ih ⊢
      omega

theorem parseExtentsLoop_round (l : List Extent) (hl : l ≠ []) (f : Nat)
    (rest : List Nat) (hf : l.length ≤ f) :
    parseExtentsLoop f (encExtentsBody l ++ 93 :: rest) = some (l, rest) := by
  induction l generalizing f rest with
  | nil => exact absurd rfl hl
  | cons e es ih =>
    match f, hf with
    | f + 1, hf =>
      cases es with
      | nil =>
        show parseExtentsLoop (f + 1) (encExtent e ++ 93 :: rest) = _
        unfold parseExtentsLoop
        rw [parseExtent_round]
      | cons e2 es2 =>
        have hbody : encExtentsBody (e :: e2 :: es2) ++ 93 :: rest =
            encExtent e ++ (44 :: (encExtentsBody (e2 :: es2) ++ 93 :: rest)) := by
          show encExtent e ++ [44] ++ encExtentsBody (e2 :: es2) ++ 93 :: rest = _
          simp
        rw [hbody]
        unfold parseExtentsLoop
        rw [parseExtent_round]
        dsimp only
        rw [ih (by simp) f rest (by simp only [List.length_cons] at hf ⊢; omega)]
        rfl

theorem parseExtents_encExtList (l : List Extent) (rest : List Nat) :
    parseExtents (encExtList l ++ rest) = some (l, rest) := by
  cases l with
  | nil => rfl
  | cons e es =>
    obtain ⟨t, ht⟩ := encExtentsBody_cons_shape e es
    have hshape : encExtList (e :: es) ++ rest =
        91 :: (123 :: (t ++ 93 :: rest)) := by
      simp [encExtList, ht]
    rw [hshape]
    show parseExtentsLoop ((123 :: (t ++ 93 :: rest)).length + 1) (123 :: (t ++ 93 :: rest)) = _
    have hback : (123 : Nat) :: (t ++ 93 :: rest) = encExtentsBody (e :: es) ++ 93 :: rest := by
      simp [ht]
    rw [hback]
    apply parseExtentsLoop_round _ (by simp)
    have h1 := encExtentsBody_length_ge (e :: es)
    simp only [List.length_cons, List.length_append] at h1 ⊢
    omega

theorem parseSubVolume_round (v : SubVolume) (rest : List Nat) :
    parseSubVolume (encSubVolume v ++ rest) = some (v, rest) := by
  unfold parseSubVolume
  have hshape : encSubVolume v ++ rest =
      123 :: (encKeyLit kExtents ++ (encExtList v.extents ++
        (44 :: (encKeyLit kVersion ++ (encStr v.version ++
        (44 :: (encKeyLit kAuthor ++ (encStr v.author ++
        (44 :: (encKeyLit kTimedate ++ (encStr v.timedate ++ (125 :: rest)))))))))))) := by
    simp [encSubVolume]
  rw [hshape, parseLit_cons_append]
  dsimp only
  rw [parseExtents_encExtList]
  dsimp only
  rw [parseLit_cons_append]
  dsimp only
  rw [parseJsonString_encStr]
  dsimp only
  rw [parseLit_cons_append]
  dsimp only
  rw [parseJsonString_encStr]
  dsimp only
  rw [parseLit_cons_append]
  dsimp only
  rw [parseJsonString_encStr]
  dsimp only
  have h125 : parseLit [125] (125 :: rest) = some rest := by
    simpa using parseLit_cons_append 125 [] rest
  rw [h125]

theorem encEntriesBody_cons_shape (kv : List Nat × SubVolume)
    (es : List (List Nat × SubVolume)) :
    ∃ t, encEntriesBody (kv :: es) = 34 :: t := by
  obtain ⟨k, v⟩ := kv
  cases es with
  | nil => exact ⟨_, rfl⟩
  | cons kv2 es2 => exact ⟨_, rfl⟩

theorem encEntriesBody_length_ge (l : List (List Nat × SubVolume)) :
    l.length ≤ (encEntriesBody l).length := by
  induction l with
  | nil => simp [encEntriesBody]
  | cons kv es ih =>
    obtain ⟨k, v⟩ := kv
    cases es with
    | nil => simp [encEntriesBody, encStr]
    | cons kv2 es2 =>
      have : encEntriesBody ((k, v) :: kv2 :: es2) =
          encStr k ++ [58] ++ encSubVolume v ++ [44] ++ encEntriesBody (kv2 :: es2) := rfl
      rw [this]
      simp only [List.length_append, List.length_cons, encStr]
      simp only [List.length_cons] at ih ⊢
      omega

theorem parseEntriesLoop_round (l : List (List Nat × SubVolume)) (hl : l ≠ [])
    (f : Nat) (rest : List Nat) (hf : l.length ≤ f) :
    parseEntriesLoop f (encEntriesBody l ++ 125 :: rest) = some (l, rest) := by
  induction l generalizing f rest with
  | nil => exact absurd rfl hl
  | cons kv es ih =>
    obtain ⟨k, v⟩ := kv
    match f, hf with
    | f + 1, hf =>
      cases es with
      | nil =>
        have hshape : encEntriesBody [(k, v)] ++ 125 :: rest =
            encStr k ++ (58 :: (encSubVolume v ++ 125 :: rest)) := by
          show encStr k ++ [58] ++ encSubVolume v ++ 125 :: rest = _
          simp
        rw [hshape]
        unfold parseEntriesLoop
        rw [parseJsonString_encStr]
        dsimp only
        have h58 : parseLit [58] (58 :: (encSubVolume v ++ 125 :: rest)) =
            some (encSubVolume v ++ 125 :: rest) := by
          simpa using parseLit_cons_append 58 [] (encSubVolume v ++ 125 :: rest)
        rw [h58]
        dsimp only
        rw [parseSubVolume_round]
      | cons kv2 es2 =>
        have hshape : encEntriesBody ((k, v) :: kv2 :: es2) ++ 125 :: rest =
            encStr k ++ (58 :: (encSubVolume v ++
              (44 :: (encEntriesBody (kv2 :: es2) ++ 125 :: rest)))) := by
          show encStr k ++ [58] ++ encSubVolume v ++ [44] ++ encEntriesBody (kv2 :: es2) ++
            125 :: rest = _
          simp
        rw [hshape]
        unfold parseEntriesLoop
        rw [parseJsonString_encStr]
        dsimp only
        have h58 : parseLit [58] (58 :: (encSubVolume v ++
            (44 :: (encEntriesBody (kv2 :: es2) ++ 125 :: rest)))) =
            some (encSubVolume v ++ (44 :: (encEntriesBody (kv2 :: es2) ++ 125 :: rest))) := by
          simpa using parseLit_cons_append 58 []
            (encSubVolume v ++ (44 :: (encEntriesBody (kv2 :: es2) ++ 125 :: rest)))
        rw [h58]
        dsimp only
        rw [parseSubVolume_round]
        dsimp only
        rw [ih (by simp) f rest (by simp only [List.length_cons] at hf ⊢; omega)]
        rfl

theorem parseSubvols_enc (l : List (List Nat × SubVolume)) (rest : List Nat) :
    parseSubvols (encSubvols l ++ rest) = some (l, rest) := by
  cases l with
  | nil => rfl
  | cons kv es =>
    obtain ⟨t, ht⟩ := encEntriesBody_cons_shape kv es
    have hshape : encSubvols (kv :: es) ++ rest = 123 :: (34 :: (t ++ 125 :: rest)) := by
      show 123 :: (encEntriesBody (kv :: es) ++ [125]) ++ rest = _
      simp [ht]
    rw [hshape]
    show parseEntriesLoop ((34 :: (t ++ 125 :: rest)).length + 1) (34 :: (t ++ 125 :: rest)) = _
    have hback : (34 : Nat) :: (t ++ 125 :: rest) = encEntriesBody (kv :: es) ++ 125 :: rest := by
      simp [ht]
    rw [hback]
    apply parseEntriesLoop_round _ (by simp)
    have h1 := encEntriesBody_length_ge (kv :: es)
    simp only [List.length_cons, List.length_append] at h1 ⊢
    omega

theorem parseSuper_round (sp : SuperPartition) (rest : List Nat) :
    parseSuper (jsonEncodeSuper sp ++ rest) = some (sp, rest) := by
  unfold parseSuper
  have hshape : jsonEncodeSuper sp ++ rest =
      123 :: (encKeyLit kDevice ++ (encStr sp.device ++
        (44 :: (encKeyLit kGeneration ++ (natToBytes sp.generation ++
        (44 :: (encKeyLit kSubvols ++ (encSubvols sp.subvols ++ (125 :: rest))))))))) := by
    simp [jsonEncodeSuper, jsonPre, jsonPost]
  rw [hshape, parseLit_cons_append]
  dsimp only
  rw [parseJsonString_encStr]
  dsimp only
  rw [parseLit_cons_append]
  dsimp only
  rw [parseNat_natToBytes _ _ (by rfl)]
  dsimp only
  rw [parseLit_cons_append]
  dsimp only
  rw [parseSubvols_enc]
  dsimp only
  have h125 : parseLit [125] (125 :: rest) = some rest := by
    simpa using parseLit_cons_append 125 [] rest
  rw [h125]

theorem noNL_append {l1 l2 : List Nat} (h1 : NoNL l1) (h2 : NoNL l2) :
    NoNL (l1 ++ l2) := by
  intro b hb
  rcases List.mem_append.mp hb with h | h
  · exact h1 b h
  · exact h2 b h

theorem noNL_nil : NoNL [] := by
  intro b hb
  cases hb

theorem noNL_cons {x : Nat} {l : List Nat} (hx : x ≠ 10) (hl : NoNL l) :
    NoNL (x :: l) := by
  intro b hb
  rcases List.mem_cons.mp hb with rfl | hb
  · exact hx
  · exact hl b hb

theorem noNL_escapeByte (b : Nat) : NoNL (escapeByte b) := by
  intro x hx
  unfold escapeByte at hx
  by_cases h34 : b = 34
  · rw [if_pos h34] at hx; fin_cases hx <;> decide
  rw [if_neg h34] at hx
  by_cases h92 : b = 92
  · rw [if_pos h92] at hx; fin_cases hx <;> decide
  rw [if_neg h92] at hx
  by_cases h8 : b = 8
  · rw [if_pos h8] at hx; fin_cases hx <;> decide
  rw [if_neg h8] at hx
  by_cases h9 : b = 9
  · rw [if_pos h9] at hx; fin_cases hx <;> decide
  rw [if_neg h9] at hx
  by_cases h10 : b = 10
  · rw [if_pos h10] at hx; fin_cases hx <;> decide
  rw [if_neg h10] at hx
  by_cases h12 : b = 12
  · rw [if_pos h12] at hx; fin_cases hx <;> decide
  rw [if_neg h12] at hx
  by_cases h13 : b = 13
  · rw [if_pos h13] at hx; fin_cases hx <;> decide
  rw [if_neg h13] at hx
  by_cases hlt : b < 32
  · rw [if_pos hlt] at hx
    fin_cases hx
    · decide
    · decide
    · decide
    · decide
    · unfold hexDigit; split <;> omega
    · unfold hexDigit; split <;> omega
  · rw [if_neg hlt] at hx
    fin_cases hx
    omega

theorem noNL_escBytes (s : List Nat) : NoNL (escBytes s) := by
  induction s with
  | nil => exact noNL_nil
  | cons x xs ih =>
    show NoNL (escapeByte x ++ escBytes xs)
    exact noNL_append (noNL_escapeByte x) ih

theorem noNL_natToBytes (n : Nat) : NoNL (natToBytes n) := by
  intro b hb
  have := natToBytesAux_digits n n b hb
  omega

theorem noNL_encStr (s : List Nat) : NoNL (encStr s) := by
  exact noNL_cons (by decide) (noNL_append (noNL_escBytes s) (by decide))

theorem noNL_encExtent (e : Extent) : NoNL (encExtent e) := by
  refine noNL_cons (by decide) ?_
  refine noNL_append (noNL_append (noNL_append (noNL_append (noNL_append
    (by decide) (noNL_natToBytes _)) (by decide)) (by decide)) (noNL_natToBytes _)) (by decide)

theorem noNL_encExtentsBody (l : List Extent) : NoNL (encExtentsBody l) := by
  induction l with
  | nil => exact noNL_nil
  | cons e es ih =>
    cases es with
    | nil => exact noNL_encExtent e
    | cons e2 es2 =>
      show NoNL (encExtent e ++ [44] ++ encExtentsBody (e2 :: es2))
      exact noNL_append (noNL_append (noNL_encExtent e) (by decide)) ih

theorem noNL_encExtList (l : List Extent) : NoNL (encExtList l) :=
  noNL_cons (by decide) (noNL_append (noNL_encExtentsBody l) (by decide))

theorem noNL_encSubVolume (v : SubVolume) : NoNL (encSubVolume v) := by
  refine noNL_cons (by decide) ?_
  exact noNL_append (noNL_append (noNL_append (noNL_append (noNL_append (noNL_append
    (noNL_append (noNL_append (noNL_append (noNL_append (noNL_append
    (by decide) (noNL_encExtList _)) (by decide)) (by decide)) (noNL_encStr _)) (by decide))
    (by decide)) (noNL_encStr _)) (by decide)) (by decide)) (noNL_encStr _)) (by decide)

theorem noNL_encEntriesBody (l : List (List Nat × SubVolume)) :
    NoNL (encEntriesBody l) := by
  induction l with
  | nil => exact noNL_nil
  | cons kv es ih =>
    obtain ⟨k, v⟩ := kv
    cases es with
    | nil =>
      show NoNL (encStr k ++ [58] ++ encSubVolume v)
      exact noNL_append (noNL_append (noNL_encStr k) (by decide)) (noNL_encSubVolume v)
    | cons kv2 es2 =>
      show NoNL (encStr k ++ [58] ++ encSubVolume v ++ [44] ++ encEntriesBody (kv2 :: es2))
      exact noNL_append (noNL_append (noNL_append (noNL_append (noNL_encStr k) (by decide))
        (noNL_encSubVolume v)) (by decide)) ih

theorem noNL_encSubvols (l : List (List Nat × SubVolume)) : NoNL (encSubvols l) := by
  cases l with
  | nil => exact by decide
  | cons kv es =>
    show NoNL (123 :: (encEntriesBody (kv :: es) ++ [125]))
    exact noNL_cons (by decide) (noNL_append (noNL_encEntriesBody _) (by decide))

theorem noNL_jsonEncodeSuper (sp : SuperPartition) : NoNL (jsonEncodeSuper sp) := by
  unfold jsonEncodeSuper
  refine noNL_append (noNL_append ?_ (noNL_natToBytes _)) ?_
  · exact noNL_cons (by decide) (noNL_append (noNL_append (noNL_append
      (by decide) (noNL_encStr _)) (by decide)) (by decide))
  · exact noNL_cons (by decide) (noNL_append (noNL_append
      (by decide) (noNL_encSubvols _)) (by decide))

theorem readLine_append_nl (l r : List Nat) (hl : NoNL l) :
    readLine (l ++ 10 :: r) = l ++ [10] := by
  induction l with
  | nil => rfl
  | cons b bs ih =>
    have hb : b ≠ 10 := hl b (by simp)
    simp only [List.cons_append, readLine, if_neg hb, List.append_eq]
    rw [ih (fun x hx => hl x (by simp [hx]))]

theorem dropWhile_append_last {p : Nat → Bool} (u : List Nat) (b : Nat)
    (hb : p b = false) : ∃ t, List.dropWhile p (u ++ [b]) = t ++ [b] := by
  induction u with
  | nil => exact ⟨[], by simp [List.dropWhile, hb]⟩
  | cons x xs ih =>
    by_cases hx : p x
    · simpa [List.dropWhile, hx] using ih
    · exact ⟨x :: xs, by simp [List.dropWhile, hx]⟩

theorem trimBytes_wrap (a c : Nat) (mid : List Nat)
    (ha : isWs a = false) (hc : isWs c = false) :
    trimBytes ((a :: (mid ++ [c])) ++ [10]) = a :: (mid ++ [c]) := by
  unfold trimBytes
  have h1 : List.dropWhile isWs ((a :: (mid ++ [c])) ++ [10]) =
      (a :: (mid ++ [c])) ++ [10] := by
    simp [List.dropWhile, ha]
  rw [h1]
  have h2 : ((a :: (mid ++ [c])) ++ [10]).reverse = 10 :: (c :: (mid.reverse ++ [a])) := by
    simp
  rw [h2]
  have h10 : isWs 10 = true := by decide
  have h3 : List.dropWhile isWs (10 :: (c :: (mid.reverse ++ [a]))) =
      c :: (mid.reverse ++ [a]) := by
    simp [List.dropWhile, h10, hc]
  rw [h3]
  simp

/-- Expose `jsonEncodeSuper sp` as `123 :: (mid ++ [125])`. -/
theorem jsonEncodeSuper_braces (sp : SuperPartition) :
    ∃ mid, jsonEncodeSuper sp = 123 :: (mid ++ [125]) := by
  refine ⟨encKeyLit kDevice ++ encStr sp.device ++ [44] ++ encKeyLit kGeneration ++
    natToBytes sp.generation ++ [44] ++ encKeyLit kSubvols ++ encSubvols sp.subvols, ?_⟩
  unfold jsonEncodeSuper jsonPre jsonPost
  simp

theorem trimBytes_jsonEncode_nl (sp : SuperPartition) :
    trimBytes (jsonEncodeSuper sp ++ [10]) = jsonEncodeSuper sp := by
  obtain ⟨mid, hm⟩ := jsonEncodeSuper_braces sp
  rw [hm]
  exact trimBytes_wrap 123 125 mid (by decide) (by decide)

/-- Round trip of the framed slot encoding, robust to arbitrary trailing
bytes after the NUL terminator (the rest of the block). -/
theorem load_encodeFrame (sp : SuperPartition) (junk : List Nat) :
    load_metadataE (encodeFrame sp ++ junk) = .ok sp := by
  have hshape : encodeFrame sp ++ junk =
      (crc32cksum (jsonEncodeSuper sp)) / 16777216 % 256 ::
      ((crc32cksum (jsonEncodeSuper sp)) / 65536 % 256 ::
      ((crc32cksum (jsonEncodeSuper sp)) / 256 % 256 ::
      ((crc32cksum (jsonEncodeSuper sp)) % 256 ::
      (jsonEncodeSuper sp ++ 10 :: (0 :: junk))))) := by
    unfold encodeFrame toBE4
    simp
  rw [hshape]
  unfold load_metadataE
  dsimp only
  rw [fromBE4_toBE4 _ (crc32cksum_lt _)]
  rw [readLine_append_nl _ _ (noNL_jsonEncodeSuper sp)]
  rw [trimBytes_jsonEncode_nl]
  rw [if_pos rfl]
  unfold jsonDecodeSuper
  have hr : parseSuper (jsonEncodeSuper sp) = some (sp, []) := by
    have := parseSuper_round sp []
    simpa using this
  rw [hr]
  rfl

theorem loadOpt_encodeFrame (sp : SuperPartition) (junk : List Nat) :
    loadOpt (encodeFrame sp ++ junk) = some sp := by
  unfold loadOpt
  rw [load_encodeFrame]
  rfl

theorem extSep_symm {a b : Extent} (h : ExtSep a b) : ExtSep b a := h.symm

theorem not_overlap_of_extSep {a b : Extent} (h : ExtSep a b) : ¬ ExtOverlap a b := by
  rintro ⟨x, ⟨ha1, ha2⟩, ⟨hb1, hb2⟩⟩
  unfold ExtSep SepR extEnd at h
  unfold extEnd at ha2 hb2
  rcases h with h | h <;> omega

theorem sumLen_append (l1 l2 : List Extent) :
    sumLen (l1 ++ l2) = sumLen l1 + sumLen l2 := by
  simp [sumLen]

theorem allocLoop_spec (s : List Extent) (need : Nat) (acc : List Extent)
    (hs : List.Pairwise SepR s)
    (hacc_s : ∀ a ∈ acc, ∀ x ∈ s, SepR a x)
    (hacc : List.Pairwise ExtSep acc) :
    sumLen (allocLoop (s.zip s.tail) need acc).1 + (allocLoop (s.zip s.tail) need acc).2 =
        sumLen acc + need ∧
    (allocLoop (s.zip s.tail) need acc).2 ≤ need ∧
    List.Pairwise ExtSep (allocLoop (s.zip s.tail) need acc).1 ∧
    (∀ e ∈ (allocLoop (s.zip s.tail) need acc).1, ∀ x ∈ s, ExtSep e x) ∧
    (∀ e ∈ (allocLoop (s.zip s.tail) need acc).1,
      e ∈ acc ∨ sHeadEnd s ≤ e.block_offset) := by
  induction s generalizing need acc with
  | nil =>
    refine ⟨by simp [allocLoop], by simp [allocLoop], by simpa [allocLoop] using hacc,
      ?_, ?_⟩
    · intro e he z hz
      cases hz
    · intro e he
      exact Or.inl (by simpa [allocLoop] using he)
  | cons x s2 ih =>
    cases s2 with
    | nil =>
      refine ⟨by simp [allocLoop], by simp [allocLoop], by simpa [allocLoop] using hacc,
        ?_, ?_⟩
      · intro e he z hz
        simp only [List.tail, List.zip_nil_right, allocLoop] at he
        have hzx : z = x := List.mem_singleton.mp hz
        subst hzx
        exact Or.inl (hacc_s e he z (by simp))
      · intro e he
        simp only [List.tail, List.zip_nil_right, allocLoop] at he
        exact Or.inl he
    | cons y rest =>
      have hxy : x.block_offset + x.block_length ≤ y.block_offset :=
        (List.pairwise_cons.mp hs).1 y (by simp)
      have hs2 : List.Pairwise SepR (y :: rest) := (List.pairwise_cons.mp hs).2
      have hzip : (x :: y :: rest).zip (x :: y :: rest).tail =
          (x, y) :: ((y :: rest).zip (y :: rest).tail) := by
        simp [List.zip_cons_cons]
      rw [hzip]
      set e0 : Extent :=
        ⟨x.block_offset + x.block_length,
         min (y.block_offset - (x.block_offset + x.block_length)) need⟩ with he0
      have hstep : allocLoop ((x, y) :: ((y :: rest).zip (y :: rest).tail)) need acc =
          if need - e0.block_length = 0 then (acc ++ [e0], 0)
          else allocLoop ((y :: rest).zip (y :: rest).tail)
            (need - e0.block_length) (acc ++ [e0]) := rfl
      rw [hstep]
      have he0_off : e0.block_offset = x.block_offset + x.block_length := rfl
      have he0_len : e0.block_length =
          min (y.block_offset - (x.block_offset + x.block_length)) need := rfl
      have he0_end : extEnd e0 ≤ y.block_offset := by
        have h1 : extEnd e0 = e0.block_offset + e0.block_length := rfl
        omega
      have hlen_le : e0.block_length ≤ need := by omega
      have hsep_acc_e0 : ∀ a ∈ acc, ExtSep a e0 := by
        intro a ha
        refine Or.inl ?_
        show extEnd a ≤ e0.block_offset
        have h1 : extEnd a ≤ x.block_offset := hacc_s a ha x (by simp)
        omega
      have hacc2 : List.Pairwise ExtSep (acc ++ [e0]) := by
        rw [List.pairwise_append]
        refine ⟨hacc, by simp, ?_⟩
        intro a ha b hb
        have hbe : b = e0 := List.mem_singleton.mp hb
        subst hbe
        exact hsep_acc_e0 a ha
      have hsep_e0_s : ∀ z ∈ x :: y :: rest, ExtSep e0 z := by
        intro z hz
        rcases List.mem_cons.mp hz with rfl | hz2
        · refine Or.inr ?_
          show z.block_offset + z.block_length ≤ e0.block_offset
          omega
        · rcases List.mem_cons.mp hz2 with rfl | hz3
          · exact Or.inl he0_end
          · refine Or.inl ?_
            show extEnd e0 ≤ z.block_offset
            have hyz : y.block_offset + y.block_length ≤ z.block_offset :=
              (List.pairwise_cons.mp hs2).1 z hz3
            omega
      have hacc2_s : ∀ a ∈ acc ++ [e0], ∀ z ∈ y :: rest, SepR a z := by
        intro a ha z hz
        rcases List.mem_append.mp ha with ha2 | ha2
        · exact hacc_s a ha2 z (by simp [hz])
        · have hae : a = e0 := List.mem_singleton.mp ha2
          subst hae
          rcases List.mem_cons.mp hz with rfl | hz2
          · exact he0_end
          · show extEnd e0 ≤ z.block_offset
            have hyz : y.block_offset + y.block_length ≤ z.block_offset :=
              (List.pairwise_cons.mp hs2).1 z hz2
            have h1 : extEnd e0 ≤ y.block_offset := he0_end
            omega
      by_cases hz : need - e0.block_length = 0
      · rw [if_pos hz]
        refine ⟨?_, ?_, hacc2, ?_, ?_⟩
        · simp only [sumLen_append]
          have hone : sumLen [e0] = e0.block_length := by simp [sumLen]
          rw [hone]
          omega
        · omega
        · intro e he z hz2
          rcases List.mem_append.mp he with he2 | he2
          · exact Or.inl (hacc_s e he2 z hz2)
          · have hee : e = e0 := List.mem_singleton.mp he2
            subst hee
            exact hsep_e0_s z hz2
        · intro e he
          rcases List.mem_append.mp he with he2 | he2
          · exact Or.inl he2
          · have hee : e = e0 := List.mem_singleton.mp he2
            subst hee
            refine Or.inr ?_
            show extEnd x ≤ e0.block_offset
            have h1 : extEnd x = x.block_offset + x.block_length := rfl
            omega
      · rw [if_neg hz]
        obtain ⟨ihsum, ihle, ihpw, ihsep, ihmem⟩ :=
          ih (need - e0.block_length) (acc ++ [e0]) hs2 hacc2_s hacc2
        refine ⟨?_, ?_, ihpw, ?_, ?_⟩
        · rw [ihsum, sumLen_append]
          have hone : sumLen [e0] = e0.block_length := by simp [sumLen]
          rw [hone]
          omega
        · omega
        · intro e he z hz2
          rcases List.mem_cons.mp hz2 with rfl | hz3
          · rcases ihmem e he with hmem | hbound
            · rcases List.mem_append.mp hmem with he2 | he2
              · exact Or.inl (hacc_s e he2 z (by simp))
              · have hee : e = e0 := List.mem_singleton.mp he2
                subst hee
                exact hsep_e0_s z (by simp)
            · refine Or.inr ?_
              show extEnd z ≤ e.block_offset
              have hh : sHeadEnd (y :: rest) = extEnd y := rfl
              rw [hh] at hbound
              have h1 : extEnd z = z.block_offset + z.block_length := rfl
              have h2 : y.block_offset ≤ extEnd y := by
                have : extEnd y = y.block_offset + y.block_length := rfl
                omega
              omega
          · exact ihsep e he z hz3
        · intro e he
          rcases ihmem e he with hmem | hbound
          · rcases List.mem_append.mp hmem with he2 | he2
            · exact Or.inl he2
            · have hee : e = e0 := List.mem_singleton.mp he2
              subst hee
              refine Or.inr ?_
              show extEnd x ≤ e0.block_offset
              have h1 : extEnd x = x.block_offset + x.block_length := rfl
              omega
          · refine Or.inr ?_
            have hh1 : sHeadEnd (y :: rest) = extEnd y := rfl
            have hh2 : sHeadEnd (x :: y :: rest) = extEnd x := rfl
            rw [hh1] at hbound
            rw [hh2]
            have h1 : extEnd x = x.block_offset + x.block_length := rfl
            have h2 : extEnd y = y.block_offset + y.block_length := rfl
            omega

theorem extLe_trans : ∀ a b c : Extent,
    extLe a b = true → extLe b c = true → extLe a c = true := by
  intro a b c h1 h2
  simp only [extLe, Bool.or_eq_true, Bool.and_eq_true, decide_eq_true_eq] at h1 h2 ⊢
  omega

theorem extLe_total : ∀ a b : Extent, (extLe a b || extLe b a) = true := by
  intro a b
  simp only [extLe, Bool.or_eq_true, Bool.and_eq_true, decide_eq_true_eq]
  omega

theorem sepR_of_le_sep {a b : Extent} (hle : extLe a b = true) (hsep : ExtSep a b) :
    SepR a b := by
  simp only [extLe, Bool.or_eq_true, Bool.and_eq_true, decide_eq_true_eq] at hle
  unfold ExtSep SepR extEnd at hsep
  unfold SepR extEnd
  omega

/-- A pairwise-separated extent collection becomes a pairwise
`SepR`-ascending list once sorted by the derived `Ord`. -/
theorem pairwise_sepR_mergeSort (raw : List Extent) (h : List.Pairwise ExtSep raw) :
    List.Pairwise SepR (raw.mergeSort extLe) := by
  have hperm := List.mergeSort_perm raw extLe
  have hsep : List.Pairwise ExtSep (raw.mergeSort extLe) :=
    h.perm hperm.symm (fun hxy => hxy.symm)
  have hsorted : List.Pairwise (fun a b => extLe a b = true) (raw.mergeSort extLe) :=
    List.sorted_mergeSort extLe_trans extLe_total raw
  exact (hsorted.and hsep).imp (fun h2 => sepR_of_le_sep h2.1 h2.2)

theorem allExtentsRaw_append (l1 l2 : List (List Nat × SubVolume)) :
    allExtentsRaw (l1 ++ l2) = allExtentsRaw l1 ++ allExtentsRaw l2 := by
  induction l1 with
  | nil => rfl
  | cons kv t ih =>
    obtain ⟨k, v⟩ := kv
    simp [allExtentsRaw, ih]

theorem allExtentsRaw_sublist {l1 l2 : List (List Nat × SubVolume)}
    (h : l1.Sublist l2) : (allExtentsRaw l1).Sublist (allExtentsRaw l2) := by
  induction h with
  | slnil => exact List.Sublist.refl _
  | cons kv _ ih =>
    refine ih.trans ?_
    show (allExtentsRaw _).Sublist (kv.2.extents ++ allExtentsRaw _)
    exact List.sublist_append_right _ _
  | cons₂ kv _ ih =>
    show (kv.2.extents ++ allExtentsRaw _).Sublist (kv.2.extents ++ allExtentsRaw _)
    exact ih.append_left _

theorem insertA_of_not_contains (l : List (List Nat × SubVolume)) (key : List Nat)
    (v : SubVolume) (h : containsKey l key = false) :
    insertA l key v = l ++ [(key, v)] := by
  induction l with
  | nil => rfl
  | cons kv t ih =>
    obtain ⟨k2, v2⟩ := kv
    simp only [containsKey] at h
    by_cases hk : k2 = key
    · rw [if_pos hk] at h
      exact absurd h (by simp)
    · rw [if_neg hk] at h
      simp only [insertA, if_neg hk, List.cons_append]
      rw [ih h]

/-- Conservation of the requested size through the allocation loop,
with no assumption on the extent layout: allocated length plus
remaining need equals the initial need, and the remainder never grows. -/
theorem allocLoop_sum (ps : List (Extent × Extent)) (need : Nat) (acc : List Extent) :
    sumLen (allocLoop ps need acc).1 + (allocLoop ps need acc).2 = sumLen acc + need ∧
    (allocLoop ps need acc).2 ≤ need := by
  induction ps generalizing need acc with
  | nil => simp [allocLoop]
  | cons ab rest ih =>
    obtain ⟨a, b⟩ := ab
    set e0 : Extent :=
      ⟨a.block_offset + a.block_length,
       min (b.block_offset - (a.block_offset + a.block_length)) need⟩ with he0
    have hstep : allocLoop ((a, b) :: rest) need acc =
        if need - e0.block_length = 0 then (acc ++ [e0], 0)
        else allocLoop rest (need - e0.block_length) (acc ++ [e0]) := rfl
    rw [hstep]
    have hone : sumLen (acc ++ [e0]) = sumLen acc + e0.block_length := by
      rw [sumLen_append]; simp [sumLen]
    have hlen_le : e0.block_length ≤ need := by
      have : e0.block_length =
          min (b.block_offset - (a.block_offset + a.block_length)) need := rfl
      omega
    by_cases hz : need - e0.block_length = 0
    · rw [if_pos hz]
      constructor
      · dsimp only
        rw [hone]
        omega
      · dsimp only
        omega
    · rw [if_neg hz]
      obtain ⟨ih1, ih2⟩ := ih (need - e0.block_length) (acc ++ [e0])
      constructor
      · rw [ih1, hone]
        omega
      · omega

theorem create_subvol_error_unchanged (sp : SuperPartition) (name : List Nat)
    (size iosize : Nat) (e : EKind)
    (h : (create_subvol sp name size iosize).2 = .error e) :
    (create_subvol sp name size iosize).1 = sp := by
  by_cases hc : containsKey sp.subvols name
  · simp [create_subvol, hc]
  · by_cases hr : 0 < (allocLoop ((get_all_extents sp).zip (get_all_extents sp).tail)
        ((size + iosize - 1) / iosize) []).2
    · simp [create_subvol, hc, hr]
    · simp [create_subvol, hc, hr] at h

theorem create_subvol_ok_eq (sp : SuperPartition) (name : List Nat)
    (size iosize : Nat) (sp2 : SuperPartition) (sv : SubVolume)
    (h : create_subvol sp name size iosize = (sp2, .ok sv)) :
    containsKey sp.subvols name = false ∧
    sv = ⟨(allocLoop ((get_all_extents sp).zip (get_all_extents sp).tail)
      ((size + iosize - 1) / iosize) []).1, [], [], []⟩ ∧
    (allocLoop ((get_all_extents sp).zip (get_all_extents sp).tail)
      ((size + iosize - 1) / iosize) []).2 = 0 ∧
    sp2 = { sp with subvols := sp.subvols ++ [(name, sv)] } := by
  by_cases hc : containsKey sp.subvols name
  · simp [create_subvol, hc] at h
  · by_cases hr : 0 < (allocLoop ((get_all_extents sp).zip (get_all_extents sp).tail)
        ((size + iosize - 1) / iosize) []).2
    · simp [create_subvol, hc, hr] at h
    · simp only [create_subvol, hc, if_false, Bool.false_eq_true, if_neg hr] at h
      have hfalse : containsKey sp.subvols name = false := by simpa using hc
      obtain ⟨h1, h2⟩ := Prod.mk.injEq .. ▸ h
      refine ⟨hfalse, ?_, by omega, ?_⟩
      · exact (Except.ok.injEq .. ▸ h2).symm
      · rw [← h1, insertA_of_not_contains _ _ _ hfalse]
        have hsv : sv = ⟨(allocLoop ((get_all_extents sp).zip (get_all_extents sp).tail)
            ((size + iosize - 1) / iosize) []).1, [], [], []⟩ :=
          (Except.ok.injEq .. ▸ h2).symm
        rw [hsv]

theorem sepInv_create {sp : SuperPartition} {name : List Nat} {size iosize : Nat}
    {sp2 : SuperPartition} {sv : SubVolume}
    (hinv : SepInv sp) (h : create_subvol sp name size iosize = (sp2, .ok sv)) :
    SepInv sp2 := by
  obtain ⟨hfree, hsv, hrem, hsp2⟩ := create_subvol_ok_eq sp name size iosize sp2 sv h
  have hs : List.Pairwise SepR (get_all_extents sp) :=
    pairwise_sepR_mergeSort _ hinv
  obtain ⟨_, _, hpw, hsep, _⟩ :=
    allocLoop_spec (get_all_extents sp) ((size + iosize - 1) / iosize) [] hs
      (by intro a ha; cases ha) (by constructor)
  rw [hsp2]
  unfold SepInv
  show List.Pairwise ExtSep (allExtentsRaw (sp.subvols ++ [(name, sv)]))
  rw [allExtentsRaw_append]
  rw [List.pairwise_append]
  refine ⟨hinv, ?_, ?_⟩
  · show List.Pairwise ExtSep (allExtentsRaw [(name, sv)])
    have : allExtentsRaw [(name, sv)] = sv.extents ++ [] := rfl
    rw [this, List.append_nil, hsv]
    exact hpw
  · intro a ha b hb
    have hb2 : b ∈ sv.extents := by
      have : allExtentsRaw [(name, sv)] = sv.extents ++ [] := rfl
      rw [this, List.append_nil] at hb
      exact hb
    have hbs : b ∈ (allocLoop ((get_all_extents sp).zip (get_all_extents sp).tail)
        ((size + iosize - 1) / iosize) []).1 := by
      rw [hsv] at hb2
      exact hb2
    have has : a ∈ get_all_extents sp :=
      ((List.mergeSort_perm (allExtentsRaw sp.subvols) extLe).mem_iff).mpr ha
    exact (hsep b hbs a has).symm

theorem sepInv_create_any (sp : SuperPartition) (name : List Nat) (size iosize : Nat)
    (hinv : SepInv sp) : SepInv (create_subvol sp name size iosize).1 := by
  rcases hr : (create_subvol sp name size iosize).2 with e | sv
  · rw [create_subvol_error_unchanged sp name size iosize e hr]
    exact hinv
  · have hpair : create_subvol sp name size iosize =
        ((create_subvol sp name size iosize).1, .ok sv) := by
      rw [← hr]
    exact sepInv_create hinv hpair

theorem sepInv_delete (sp : SuperPartition) (sv : SubVolume) (hinv : SepInv sp) :
    SepInv (delete_subvol sp sv) := by
  unfold SepInv delete_subvol at *
  exact List.Pairwise.sublist (allExtentsRaw_sublist (List.filter_sublist _)) hinv

theorem sepInv_adopt {device : List Nat} {deviceSize iosize : Nat} {name : List Nat}
    {original_size : Nat} {sp : SuperPartition}
    (h : adopt device deviceSize iosize name original_size = .ok sp) : SepInv sp := by
  unfold adopt at h
  by_cases hcond : (original_size + iosize - 1) / iosize + 2 > deviceSize / iosize
  · rw [if_pos hcond] at h
    cases h
  · rw [if_neg hcond] at h
    dsimp only at h
    have hsp := Except.ok.inj h
    subst hsp
    unfold SepInv
    by_cases hname : name = kMetadata
    · subst hname
      simp only [insertA, if_pos rfl, allExtentsRaw]
      simp
    · have hne : kMetadata ≠ name := fun hh => hname hh.symm
      simp only [insertA, if_neg hne, allExtentsRaw, List.append_nil]
      refine List.pairwise_cons.mpr ⟨?_, by simp⟩
      intro b hb
      have hb2 : b = ⟨0, (original_size + iosize - 1) / iosize⟩ := by
        simpa using hb
      subst hb2
      refine Or.inr ?_
      show 0 + (original_size + iosize - 1) / iosize ≤ deviceSize / iosize - 2
      omega

theorem sepInv_bumpGen (sp : SuperPartition) (hinv : SepInv sp) : SepInv (bumpGen sp) :=
  hinv

theorem sepInv_of_reach {sp : SuperPartition} (h : Reach sp) : SepInv sp := by
  induction h with
  | adoptStep device deviceSize iosize name original_size sp ha => exact sepInv_adopt ha
  | createStep sp name size iosize _ ih => exact sepInv_create_any sp name size iosize ih
  | deleteStep sp sv _ ih => exact sepInv_delete sp sv ih
  | commitStep sp _ ih => exact sepInv_bumpGen sp ih

theorem writeAt_length (d : List Nat) (off : Nat) (bs : List Nat)
    (h : off + bs.length ≤ d.length) : (writeAt d off bs).length = d.length := by
  unfold writeAt
  simp only [List.length_append, List.length_take, List.length_drop]
  omega

theorem readAt_writeAt_self (d : List Nat) (off : Nat) (bs : List Nat)
    (h : off ≤ d.length) :
    readAt (writeAt d off bs) off = bs ++ d.drop (off + bs.length) := by
  unfold readAt writeAt
  rw [List.drop_append_eq_append_drop]
  have h1 : List.drop off (List.take off d) = [] := by
    apply List.drop_eq_nil_of_le
    simp [List.length_take]
  have h2 : (List.take off d).length = off := by
    simp [List.length_take]
    omega
  rw [h1, h2, List.nil_append, Nat.sub_self]
  rfl

theorem readAt_writeAt_below (d : List Nat) (lo hi : Nat) (bs : List Nat)
    (hlo : lo ≤ hi) (hhi : hi ≤ d.length) :
    readAt (writeAt d hi bs) lo =
      (d.drop lo).take (hi - lo) ++ bs ++ d.drop (hi + bs.length) := by
  unfold readAt writeAt
  rw [List.drop_append_eq_append_drop]
  have h2 : (List.take hi d).length = hi := by
    simp [List.length_take]
    omega
  rw [h2, List.drop_take]
  have h3 : lo - hi = 0 := by omega
  rw [h3, List.drop_zero, List.append_assoc]

theorem readAt_writeAt_above (d : List Nat) (lo hi : Nat) (bs : List Nat)
    (h : lo + bs.length ≤ hi) (hlo : lo ≤ d.length) :
    readAt (writeAt d lo bs) hi = readAt d hi := by
  unfold readAt writeAt
  rw [List.drop_append_eq_append_drop]
  have h1 : List.drop hi (List.take lo d) = [] := by
    apply List.drop_eq_nil_of_le
    simp [List.length_take]
    omega
  have h2 : (List.take lo d).length = lo := by
    simp [List.length_take]
    omega
  rw [h1, h2, List.nil_append, List.drop_append_eq_append_drop]
  have h3 : List.drop (hi - lo) bs = [] := by
    apply List.drop_eq_nil_of_le
    omega
  rw [h3, List.nil_append, List.drop_drop]
  congr 1
  omega

theorem trimBytes_cons_head (b : Nat) (l : List Nat) (hb : isWs b = false) :
    ∃ t, trimBytes (b :: l) = b :: t := by
  unfold trimBytes
  rw [List.dropWhile_cons]
  rw [hb]
  simp only [Bool.false_eq_true, if_false, List.reverse_cons]
  obtain ⟨t2, ht2⟩ := dropWhile_append_last l.reverse b hb
  rw [ht2]
  exact ⟨t2.reverse, by simp⟩

theorem jsonDecodeSuper_head_ne (b : Nat) (t : List Nat) (hb : b ≠ 123) :
    jsonDecodeSuper (b :: t) = none := by
  unfold jsonDecodeSuper parseSuper
  have h1 : parseLit (123 :: encKeyLit kDevice) (b :: t) = none := by
    simp [parseLit, hb]
  rw [h1]

/-- Any slot whose fifth byte is NUL decodes as absent: the line starts
with a non-whitespace, non-brace byte, so the JSON parse fails
(whatever the CRC bytes say). -/
theorem loadOpt_fifth_zero (c0 c1 c2 c3 : Nat) (rest : List Nat) :
    loadOpt (c0 :: c1 :: c2 :: c3 :: 0 :: rest) = none := by
  unfold loadOpt load_metadataE
  dsimp only
  have hline : readLine (0 :: rest) = 0 :: readLine rest := by
    simp [readLine]
  rw [hline]
  obtain ⟨t, ht⟩ := trimBytes_cons_head 0 (readLine rest) (by decide)
  rw [ht]
  rw [jsonDecodeSuper_head_ne 0 t (by decide)]
  split
  · rfl
  · rfl

theorem loadOpt_replicate_zero_append (m : Nat) (hm : 5 ≤ m) (junk : List Nat) :
    loadOpt (List.replicate m 0 ++ junk) = none := by
  obtain ⟨k, rfl⟩ : ∃ k, m = k + 5 := ⟨m - 5, by omega⟩
  have hrep : List.replicate (k + 5) 0 = 0 :: 0 :: 0 :: 0 :: 0 :: List.replicate k 0 := by
    have : k + 5 = ((((k + 1) + 1) + 1) + 1) + 1 := by omega
    rw [this]
    simp [List.replicate_succ]
  rw [hrep]
  exact loadOpt_fifth_zero 0 0 0 0 (List.replicate k 0 ++ junk)

theorem loadOpt_replicate_zero (m : Nat) (hm : 5 ≤ m) :
    loadOpt (List.replicate m 0) = none := by
  have := loadOpt_replicate_zero_append m hm []
  simpa using this

theorem encodeFrame_length (sp : SuperPartition) :
    (encodeFrame sp).length = (jsonEncodeSuper sp).length + 6 := by
  simp [encodeFrame, toBE4]

theorem jsonLen_decomp (sp : SuperPartition) :
    (jsonEncodeSuper sp).length =
      (jsonPre sp.device).length + (natToBytes sp.generation).length +
        (jsonPost sp.subvols).length := by
  simp [jsonEncodeSuper]
  omega

theorem slotIs_loadOpt {d : List Nat} {off : Nat} {sp : SuperPartition}
    (h : SlotIs d off sp) : loadOpt (readAt d off) = some sp := by
  obtain ⟨junk, hj⟩ := h
  rw [hj]
  exact loadOpt_encodeFrame sp junk

theorem bumpGen_device (sp : SuperPartition) : (bumpGen sp).device = sp.device := rfl

theorem bumpGen_subvols (sp : SuperPartition) : (bumpGen sp).subvols = sp.subvols := rfl

theorem bumpGen_gen (sp : SuperPartition) (h : sp.generation + 1 < 4294967296) :
    (bumpGen sp).generation = sp.generation + 1 := by
  unfold bumpGen
  exact Nat.mod_eq_of_lt h

/-- A successful `commit` writes the frame of the bumped value at the
target offset chosen by the slot-selection match. -/
theorem commitIo_eq (d : List Nat) (iosize : Nat) (sp : SuperPartition)
    (hfit : (jsonEncodeSuper (bumpGen sp)).length + 6 < iosize) :
    commitIo d iosize sp = some
      (writeAt d ((d.length / iosize - chooseSlot (load_both_metadata d iosize).1
        (load_both_metadata d iosize).2) * iosize) (encodeFrame (bumpGen sp)), bumpGen sp) := by
  unfold commitIo
  dsimp only
  rw [if_pos hfit]

theorem chooseSlot_some_some (a b : SuperPartition) :
    chooseSlot (some a) (some b) = if a.generation < b.generation then 1 else 2 := rfl

theorem range_map_pingpong (a b g n : Nat) :
    ((b, g + 1) :: (List.range n).map
        (fun k => ((if k % 2 = 0 then a else b), g + 1 + k + 1))) =
      (List.range (n + 1)).map
        (fun k => ((if k % 2 = 0 then b else a), g + k + 1)) := by
  rw [List.range_succ_eq_map, List.map_cons, List.map_map]
  refine congrArg₂ List.cons (by simp) ?_
  apply List.map_congr_left
  intro k hk
  simp only [Function.comp_apply, Nat.succ_eq_add_one]
  by_cases hpar : k % 2 = 0
  · rw [if_pos hpar, if_neg (by omega)]
    simp only [Prod.mk.injEq]
    exact ⟨by trivial, by omega⟩
  · rw [if_neg hpar, if_pos (by omega)]
    simp only [Prod.mk.injEq]
    exact ⟨by trivial, by omega⟩

/-- Ping-pong invariant for iterated commits, from a state where both
slots decode and the just-written slot (block `wBlk`) leads the other
slot (block `oBlk`) by exactly one generation: the next `n` commits
alternate slots starting with `oBlk`, writing generations that increase
by exactly one per commit. -/
theorem commitSeq_pingpong (iosize B2 : Nat) (hio : 0 < iosize) :
    ∀ (n : Nat) (d : List Nat) (sp spOld : SuperPartition) (wBlk oBlk : Nat),
    ((wBlk = B2 + 1 ∧ oBlk = B2) ∨ (wBlk = B2 ∧ oBlk = B2 + 1)) →
    d.length = (B2 + 2) * iosize →
    SlotIs d (wBlk * iosize) sp →
    SlotIs d (oBlk * iosize) spOld →
    sp.generation = spOld.generation + 1 →
    sp.generation + n < 4294967296 →
    (∀ g, g ≤ sp.generation + n →
      (jsonPre sp.device).length + (natToBytes g).length +
        (jsonPost sp.subvols).length + 6 < iosize) →
    ∃ d2 sp2, commitSeq iosize n d sp = some (d2, sp2,
      (List.range n).map (fun k =>
        ((if k % 2 = 0 then oBlk else wBlk), sp.generation + k + 1))) ∧
      sp2.generation = sp.generation + n ∧ sp2.device = sp.device ∧
      sp2.subvols = sp.subvols := by
  intro n
  induction n with
  | zero =>
    intro d sp spOld wBlk oBlk horient hd hw ho hgen hbound hfit
    exact ⟨d, sp, by simp [commitSeq], by omega, rfl, rfl⟩
  | succ n ih =>
    intro d sp spOld wBlk oBlk horient hd hw ho hgen hbound hfit
    have hjson_sp : (jsonEncodeSuper sp).length + 6 < iosize := by
      have h1 := hfit sp.generation (by omega)
      rw [jsonLen_decomp]
      omega
    have hgen1 : sp.generation + 1 < 4294967296 := by omega
    have hb_gen : (bumpGen sp).generation = sp.generation + 1 := bumpGen_gen sp hgen1
    have hjson_b : (jsonEncodeSuper (bumpGen sp)).length + 6 < iosize := by
      rw [jsonLen_decomp, bumpGen_device, bumpGen_subvols, hb_gen]
      exact hfit (sp.generation + 1) (by omega)
    have hBdiv : d.length / iosize = B2 + 2 := by
      rw [hd]
      exact Nat.mul_div_cancel _ hio
    have hmul1 : (B2 + 1) * iosize = B2 * iosize + iosize := by ring
    have hmul2 : (B2 + 2) * iosize = B2 * iosize + 2 * iosize := by ring
    have hframe2_len : (encodeFrame (bumpGen sp)).length < iosize := by
      rw [encodeFrame_length]
      omega
    have hframeW_len : (encodeFrame sp).length < iosize := by
      rw [encodeFrame_length]
      omega
    have e1 : B2 + 2 - 1 = B2 + 1 := by omega
    have e2 : B2 + 2 - 2 = B2 := by omega
    have hlb : load_both_metadata d iosize =
        (loadOpt (readAt d ((B2 + 1) * iosize)), loadOpt (readAt d (B2 * iosize))) := by
      unfold load_both_metadata
      dsimp only
      rw [hBdiv, e1, e2]
    have hfit2 : ∀ g, g ≤ (bumpGen sp).generation + n →
        (jsonPre (bumpGen sp).device).length + (natToBytes g).length +
          (jsonPost (bumpGen sp).subvols).length + 6 < iosize := by
      intro g hg
      rw [bumpGen_device, bumpGen_subvols]
      exact hfit g (by rw [hb_gen] at hg; omega)
    rcases horient with ⟨hwb, hob⟩ | ⟨hwb, hob⟩
    · -- written slot is the last block, target is the second-to-last
      rw [hwb] at hw
      rw [hob] at ho
      rw [hwb, hob]
      have hm1 : loadOpt (readAt d ((B2 + 1) * iosize)) = some sp := slotIs_loadOpt hw
      have hm2 : loadOpt (readAt d (B2 * iosize)) = some spOld := slotIs_loadOpt ho
      have hchoose : chooseSlot (load_both_metadata d iosize).1
          (load_both_metadata d iosize).2 = 2 := by
        rw [hlb]
        dsimp only
        rw [hm1, hm2, chooseSlot_some_some]
        rw [if_neg (by omega)]
      have hcommit : commitIo d iosize sp =
          some (writeAt d (B2 * iosize) (encodeFrame (bumpGen sp)), bumpGen sp) := by
        rw [commitIo_eq d iosize sp hjson_b, hchoose, hBdiv, e2]
      have hd2len : (writeAt d (B2 * iosize) (encodeFrame (bumpGen sp))).length =
          (B2 + 2) * iosize := by
        rw [writeAt_length]
        · exact hd
        · rw [hd]
          omega
      have hslot_w : SlotIs (writeAt d (B2 * iosize) (encodeFrame (bumpGen sp)))
          (B2 * iosize) (bumpGen sp) := by
        refine ⟨d.drop (B2 * iosize + (encodeFrame (bumpGen sp)).length), ?_⟩
        exact readAt_writeAt_self d (B2 * iosize) _ (by rw [hd]; omega)
      have hslot_o : SlotIs (writeAt d (B2 * iosize) (encodeFrame (bumpGen sp)))
          ((B2 + 1) * iosize) sp := by
        obtain ⟨junk, hj⟩ := hw
        refine ⟨junk, ?_⟩
        rw [readAt_writeAt_above d (B2 * iosize) ((B2 + 1) * iosize) _
          (by omega) (by rw [hd]; omega)]
        exact hj
      obtain ⟨d3, sp3, hseq, hg3, hdev3, hsub3⟩ :=
        ih (writeAt d (B2 * iosize) (encodeFrame (bumpGen sp))) (bumpGen sp) sp
          B2 (B2 + 1) (Or.inr ⟨rfl, rfl⟩) hd2len hslot_w hslot_o (by rw [hb_gen])
          (by rw [hb_gen]; omega) hfit2
      refine ⟨d3, sp3, ?_, by rw [hg3, hb_gen]; omega,
        by rw [hdev3, bumpGen_device], by rw [hsub3, bumpGen_subvols]⟩
      rw [commitSeq, hcommit]
      dsimp only
      rw [hseq]
      dsimp only
      rw [hchoose, hBdiv, e2, hb_gen]
      exact congrArg some (congrArg _ (congrArg _
        (range_map_pingpong (B2 + 1) B2 sp.generation n)))
    · -- written slot is the second-to-last block, target is the last
      rw [hwb] at hw
      rw [hob] at ho
      rw [hwb, hob]
      have hm1 : loadOpt (readAt d ((B2 + 1) * iosize)) = some spOld := slotIs_loadOpt ho
      have hm2 : loadOpt (readAt d (B2 * iosize)) = some sp := slotIs_loadOpt hw
      have hchoose : chooseSlot (load_both_metadata d iosize).1
          (load_both_metadata d iosize).2 = 1 := by
        rw [hlb]
        dsimp only
        rw [hm1, hm2, chooseSlot_some_some]
        rw [if_pos (by omega)]
      have hcommit : commitIo d iosize sp =
          some (writeAt d ((B2 + 1) * iosize) (encodeFrame (bumpGen sp)), bumpGen sp) := by
        rw [commitIo_eq d iosize sp hjson_b, hchoose, hBdiv, e1]
      have hd2len : (writeAt d ((B2 + 1) * iosize) (encodeFrame (bumpGen sp))).length =
          (B2 + 2) * iosize := by
        rw [writeAt_length]
        · exact hd
        · rw [hd]
          omega
      have hslot_w : SlotIs (writeAt d ((B2 + 1) * iosize) (encodeFrame (bumpGen sp)))
          ((B2 + 1) * iosize) (bumpGen sp) := by
        refine ⟨d.drop ((B2 + 1) * iosize + (encodeFrame (bumpGen sp)).length), ?_⟩
        exact readAt_writeAt_self d ((B2 + 1) * iosize) _ (by rw [hd]; omega)
      have hslot_o : SlotIs (writeAt d ((B2 + 1) * iosize) (encodeFrame (bumpGen sp)))
          (B2 * iosize) sp := by
        obtain ⟨junk, hj⟩ := hw
        have hread : readAt (writeAt d ((B2 + 1) * iosize) (encodeFrame (bumpGen sp)))
            (B2 * iosize) = (d.drop (B2 * iosize)).take ((B2 + 1) * iosize - B2 * iosize) ++
              encodeFrame (bumpGen sp) ++
              d.drop ((B2 + 1) * iosize + (encodeFrame (bumpGen sp)).length) :=
          readAt_writeAt_below d (B2 * iosize) ((B2 + 1) * iosize) _
            (by omega) (by rw [hd]; omega)
        have hj2 : d.drop (B2 * iosize) = encodeFrame sp ++ junk := hj
        have htake : (encodeFrame sp ++ junk).take ((B2 + 1) * iosize - B2 * iosize) =
            encodeFrame sp ++
              junk.take ((B2 + 1) * iosize - B2 * iosize - (encodeFrame sp).length) := by
          rw [List.take_append_eq_append_take,
            List.take_of_length_le (by omega)]
        refine ⟨junk.take ((B2 + 1) * iosize - B2 * iosize - (encodeFrame sp).length) ++
          (encodeFrame (bumpGen sp) ++
            d.drop ((B2 + 1) * iosize + (encodeFrame (bumpGen sp)).length)), ?_⟩
        rw [hread, hj2, htake, List.append_assoc, List.append_assoc]
      obtain ⟨d3, sp3, hseq, hg3, hdev3, hsub3⟩ :=
        ih (writeAt d ((B2 + 1) * iosize) (encodeFrame (bumpGen sp))) (bumpGen sp) sp
          (B2 + 1) B2 (Or.inl ⟨rfl, rfl⟩) hd2len hslot_w hslot_o (by rw [hb_gen])
          (by rw [hb_gen]; omega) hfit2
      refine ⟨d3, sp3, ?_, by rw [hg3, hb_gen]; omega,
        by rw [hdev3, bumpGen_device], by rw [hsub3, bumpGen_subvols]⟩
      rw [commitSeq, hcommit]
      dsimp only
      rw [hseq]
      dsimp only
      rw [hchoose, hBdiv, e1, hb_gen]
      exact congrArg some (congrArg _ (congrArg _
        (range_map_pingpong B2 (B2 + 1) sp.generation n)))

theorem range_map_pingpong2 (a b g m : Nat) :
    ((a, g + 1) :: (b, g + 2) :: (List.range m).map
        (fun k => ((if k % 2 = 0 then a else b), g + 2 + k + 1))) =
      (List.range (m + 2)).map
        (fun k => ((if k % 2 = 0 then a else b), g + k + 1)) := by
  rw [List.range_succ_eq_map, List.map_cons, List.map_map,
    List.range_succ_eq_map, List.map_cons, List.map_map]
  refine congrArg₂ List.cons (by simp) (congrArg₂ List.cons (by simp) ?_)
  apply List.map_congr_left
  intro k hk
  simp only [Function.comp_apply, Nat.succ_eq_add_one]
  by_cases hpar : k % 2 = 0
  · rw [if_pos hpar, if_pos (by omega)]
    simp only [Prod.mk.injEq]
    exact ⟨by trivial, by omega⟩
  · rw [if_neg hpar, if_neg (by omega)]
    simp only [Prod.mk.injEq]
    exact ⟨by trivial, by omega⟩

/-- From a device with no valid metadata (all zeros), `n` successive
commits write to alternating slots starting with the LAST block
(`total_blocks - 1`), with the written generation increasing by exactly
one each time. -/
theorem commitSeq_from_zero (iosize B2 n : Nat) (sp0 : SuperPartition)
    (hbound : sp0.generation + n < 4294967296)
    (hfit : ∀ g, g ≤ sp0.generation + n →
      (jsonPre sp0.device).length + (natToBytes g).length +
        (jsonPost sp0.subvols).length + 6 < iosize) :
    ∃ d2 sp2, commitSeq iosize n (List.replicate ((B2 + 2) * iosize) 0) sp0 =
      some (d2, sp2, (List.range n).map (fun k =>
        ((if k % 2 = 0 then B2 + 1 else B2), sp0.generation + k + 1))) ∧
      sp2.generation = sp0.generation + n := by
  have hio7 : 7 ≤ iosize := by
    have h1 := hfit sp0.generation (by omega)
    omega
  have hio : 0 < iosize := by omega
  set d0 := List.replicate ((B2 + 2) * iosize) 0 with hd0
  have hd0len : d0.length = (B2 + 2) * iosize := by simp [hd0]
  have hmul1 : (B2 + 1) * iosize = B2 * iosize + iosize := by ring
  have hmul2 : (B2 + 2) * iosize = B2 * iosize + 2 * iosize := by ring
  have hBdiv : d0.length / iosize = B2 + 2 := by
    rw [hd0len]
    exact Nat.mul_div_cancel _ hio
  have e1 : B2 + 2 - 1 = B2 + 1 := by omega
  have e2 : B2 + 2 - 2 = B2 := by omega
  have hhi_read : readAt d0 ((B2 + 1) * iosize) = List.replicate iosize 0 := by
    rw [hd0]
    unfold readAt
    rw [List.drop_replicate]
    congr 1
    omega
  have hlo_read : readAt d0 (B2 * iosize) = List.replicate (2 * iosize) 0 := by
    rw [hd0]
    unfold readAt
    rw [List.drop_replicate]
    congr 1
    omega
  have hm1 : loadOpt (readAt d0 ((B2 + 1) * iosize)) = none := by
    rw [hhi_read]
    exact loadOpt_replicate_zero iosize (by omega)
  have hm2 : loadOpt (readAt d0 (B2 * iosize)) = none := by
    rw [hlo_read]
    exact loadOpt_replicate_zero (2 * iosize) (by omega)
  have hlb : load_both_metadata d0 iosize = (none, none) := by
    unfold load_both_metadata
    dsimp only
    rw [hBdiv, e1, e2, hm1, hm2]
  match n, hbound, hfit with
  | 0, hbound, hfit => exact ⟨d0, sp0, by simp [commitSeq], by omega⟩
  | n + 1, hbound, hfit =>
    -- first commit: both slots invalid, md_block = 1, write the last block
    have hgen1 : sp0.generation + 1 < 4294967296 := by omega
    have hb_gen : (bumpGen sp0).generation = sp0.generation + 1 := bumpGen_gen sp0 hgen1
    have hjson_b : (jsonEncodeSuper (bumpGen sp0)).length + 6 < iosize := by
      rw [jsonLen_decomp, bumpGen_device, bumpGen_subvols, hb_gen]
      exact hfit (sp0.generation + 1) (by omega)
    have hframe1_len : (encodeFrame (bumpGen sp0)).length < iosize := by
      rw [encodeFrame_length]
      omega
    have hchoose1 : chooseSlot (load_both_metadata d0 iosize).1
        (load_both_metadata d0 iosize).2 = 1 := by
      rw [hlb]
      rfl
    have hcommit1 : commitIo d0 iosize sp0 =
        some (writeAt d0 ((B2 + 1) * iosize) (encodeFrame (bumpGen sp0)), bumpGen sp0) := by
      rw [commitIo_eq d0 iosize sp0 hjson_b, hchoose1, hBdiv, e1]
    set d1 := writeAt d0 ((B2 + 1) * iosize) (encodeFrame (bumpGen sp0)) with hd1
    have hd1len : d1.length = (B2 + 2) * iosize := by
      rw [hd1, writeAt_length]
      · exact hd0len
      · rw [hd0len]
        omega
    have hslot1_hi : SlotIs d1 ((B2 + 1) * iosize) (bumpGen sp0) := by
      refine ⟨d0.drop ((B2 + 1) * iosize + (encodeFrame (bumpGen sp0)).length), ?_⟩
      rw [hd1]
      exact readAt_writeAt_self d0 ((B2 + 1) * iosize) _ (by rw [hd0len]; omega)
    have hslot1_lo : readAt d1 (B2 * iosize) = List.replicate iosize 0 ++
        (encodeFrame (bumpGen sp0) ++
          d0.drop ((B2 + 1) * iosize + (encodeFrame (bumpGen sp0)).length)) := by
      rw [hd1, readAt_writeAt_below d0 (B2 * iosize) ((B2 + 1) * iosize) _
        (by omega) (by rw [hd0len]; omega)]
      rw [show List.drop (B2 * iosize) d0 = readAt d0 (B2 * iosize) from rfl, hlo_read]
      rw [List.take_replicate, List.append_assoc]
      congr 2
      omega
    have hm2b : loadOpt (readAt d1 (B2 * iosize)) = none := by
      rw [hslot1_lo]
      exact loadOpt_replicate_zero_append iosize (by omega) _
    have hBdiv1 : d1.length / iosize = B2 + 2 := by
      rw [hd1len]
      exact Nat.mul_div_cancel _ hio
    have hlb1 : load_both_metadata d1 iosize = (some (bumpGen sp0), none) := by
      unfold load_both_metadata
      dsimp only
      rw [hBdiv1, e1, e2, slotIs_loadOpt hslot1_hi, hm2b]
    match n, hbound, hfit with
    | 0, hbound, hfit =>
      refine ⟨d1, bumpGen sp0, ?_, by rw [hb_gen]⟩
      rw [commitSeq, hcommit1]
      dsimp only
      rw [show commitSeq iosize 0 d1 (bumpGen sp0) = some (d1, bumpGen sp0, []) from rfl]
      dsimp only
      rw [hchoose1, hBdiv, e1, hb_gen]
      rfl
    | m + 1, hbound, hfit =>
      -- second commit: only the last block is valid, md_block = 2
      have hgen2 : (bumpGen sp0).generation + 1 < 4294967296 := by rw [hb_gen]; omega
      have hb_gen2 : (bumpGen (bumpGen sp0)).generation = sp0.generation + 2 := by
        rw [bumpGen_gen _ hgen2, hb_gen]
      have hjson_b2 : (jsonEncodeSuper (bumpGen (bumpGen sp0))).length + 6 < iosize := by
        rw [jsonLen_decomp, bumpGen_device, bumpGen_device, bumpGen_subvols,
          bumpGen_subvols, hb_gen2]
        exact hfit (sp0.generation + 2) (by omega)
      have hframe2_len : (encodeFrame (bumpGen (bumpGen sp0))).length < iosize := by
        rw [encodeFrame_length]
        omega
      have hchoose2 : chooseSlot (load_both_metadata d1 iosize).1
          (load_both_metadata d1 iosize).2 = 2 := by
        rw [hlb1]
        rfl
      have hcommit2 : commitIo d1 iosize (bumpGen sp0) =
          some (writeAt d1 (B2 * iosize) (encodeFrame (bumpGen (bumpGen sp0))),
            bumpGen (bumpGen sp0)) := by
        rw [commitIo_eq d1 iosize (bumpGen sp0) hjson_b2, hchoose2, hBdiv1, e2]
      set d2 := writeAt d1 (B2 * iosize) (encodeFrame (bumpGen (bumpGen sp0))) with hd2
      have hd2len : d2.length = (B2 + 2) * iosize := by
        rw [hd2, writeAt_length]
        · exact hd1len
        · rw [hd1len]
          omega
      have hslot2_lo : SlotIs d2 (B2 * iosize) (bumpGen (bumpGen sp0)) := by
        refine ⟨d1.drop (B2 * iosize + (encodeFrame (bumpGen (bumpGen sp0))).length), ?_⟩
        rw [hd2]
        exact readAt_writeAt_self d1 (B2 * iosize) _ (by rw [hd1len]; omega)
      have hslot2_hi : SlotIs d2 ((B2 + 1) * iosize) (bumpGen sp0) := by
        obtain ⟨junk, hj⟩ := hslot1_hi
        refine ⟨junk, ?_⟩
        rw [hd2, readAt_writeAt_above d1 (B2 * iosize) ((B2 + 1) * iosize) _
          (by omega) (by rw [hd1len]; omega)]
        exact hj
      obtain ⟨d3, sp3, hseq, hg3, hdev3, hsub3⟩ :=
        commitSeq_pingpong iosize B2 hio m d2 (bumpGen (bumpGen sp0)) (bumpGen sp0)
          B2 (B2 + 1) (Or.inr ⟨rfl, rfl⟩) hd2len hslot2_lo hslot2_hi
          (by rw [hb_gen2, hb_gen])
          (by rw [hb_gen2]; omega)
          (by
            intro g hg
            rw [bumpGen_device, bumpGen_device, bumpGen_subvols, bumpGen_subvols]
            exact hfit g (by rw [hb_gen2] at hg; omega))
      refine ⟨d3, sp3, ?_, by rw [hg3, hb_gen2]; omega⟩
      rw [commitSeq, hcommit1]
      dsimp only
      rw [commitSeq, hcommit2]
      dsimp only
      rw [hseq]
      dsimp only
      rw [hchoose1, hchoose2, hBdiv, hBdiv1, e1, e2, hb_gen, hb_gen2]
      exact congrArg some (congrArg _ (congrArg _
        (range_map_pingpong2 (B2 + 1) B2 sp0.generation m)))

theorem chooseSlot_eq_targetSlotSpec (m1 m2 : Option SuperPartition) :
    chooseSlot m1 m2 = targetSlotSpec m1 m2 := by
  cases m1 <;> cases m2 <;> rfl

/-- Claim C1 (amended): a successful `commit` bumps the generation and
writes the new frame at the block `total_blocks - md_block`, where
`md_block` follows the target-slot rule: both slots invalid selects the
last block (`total_blocks - 1`, slot B — not slot A as the original
claim stated); exactly one valid slot selects the other one; two valid
slots select the one with the smaller generation. -/
theorem C1_commit_target (d : List Nat) (iosize : Nat) (sp : SuperPartition)
    (d2 : List Nat) (sp2 : SuperPartition)
    (h : commitIo d iosize sp = some (d2, sp2)) :
    sp2 = bumpGen sp ∧
    d2 = writeAt d ((d.length / iosize - targetSlotSpec (load_both_metadata d iosize).1
      (load_both_metadata d iosize).2) * iosize) (encodeFrame (bumpGen sp)) := by
  by_cases hfit : (jsonEncodeSuper (bumpGen sp)).length + 6 < iosize
  · rw [commitIo_eq d iosize sp hfit] at h
    have h2 := Option.some.inj h
    have hfst := congrArg Prod.fst h2
    have hsnd := congrArg Prod.snd h2
    dsimp only at hfst hsnd
    refine ⟨hsnd.symm, ?_⟩
    rw [← hfst, chooseSlot_eq_targetSlotSpec]
  · unfold commitIo at h
    dsimp only at h
    rw [if_neg hfit] at h
    cases h

/-- Both slots of the zero-filled four-block device decode as absent. -/
theorem load_both_dZero4 : load_both_metadata dZero4 64 = (none, none) := by
  unfold load_both_metadata
  dsimp only
  have hlen : dZero4.length = 256 := by simp [dZero4]
  rw [hlen]
  have h1 : readAt dZero4 ((256 / 64 - 1) * 64) = List.replicate 64 0 := by
    show readAt dZero4 192 = _
    unfold dZero4 readAt
    rw [List.drop_replicate]
  have h2 : readAt dZero4 ((256 / 64 - 2) * 64) = List.replicate 128 0 := by
    show readAt dZero4 128 = _
    unfold dZero4 readAt
    rw [List.drop_replicate]
  rw [h1, h2, loadOpt_replicate_zero 64 (by omega),
    loadOpt_replicate_zero 128 (by omega)]

/-- Claim C1 witness: the concrete commit on the zero-filled device,
with the hypothesis of the target theorem established and its
conclusion instantiated. -/
theorem C1_commit_target_witness :
    commitIo dZero4 64 spEmpty = some
      (writeAt dZero4 (3 * 64) (encodeFrame (bumpGen spEmpty)), bumpGen spEmpty) ∧
    bumpGen spEmpty = bumpGen spEmpty ∧
    writeAt dZero4 (3 * 64) (encodeFrame (bumpGen spEmpty)) =
      writeAt dZero4 ((dZero4.length / 64 - targetSlotSpec (load_both_metadata dZero4 64).1
        (load_both_metadata dZero4 64).2) * 64) (encodeFrame (bumpGen spEmpty)) := by
  have hfit : (jsonEncodeSuper (bumpGen spEmpty)).length + 6 < 64 := by decide
  have hc := commitIo_eq dZero4 64 spEmpty hfit
  rw [chooseSlot_eq_targetSlotSpec, load_both_dZero4] at hc
  have hlen : dZero4.length = 256 := by simp [dZero4]
  rw [hlen] at hc
  have htgt : (256 / 64 - targetSlotSpec none none) * 64 = 3 * 64 := by decide
  rw [htgt] at hc
  have h := C1_commit_target dZero4 64 spEmpty _ _ hc
  refine ⟨hc, rfl, ?_⟩
  rw [load_both_dZero4, hlen, htgt]

/-- Claim C1 counterexample: with both slots invalid the code selects
`md_block = 1` and writes the frame at block `total_blocks - 1` — not at
block `total_blocks - 2` (slot A) as the claim states; the two write
locations produce different devices. -/
theorem C1_counterexample :
    load_both_metadata dZero4 64 = (none, none) ∧
    commitIo dZero4 64 spEmpty = some
      (writeAt dZero4 ((4 - 1) * 64) (encodeFrame (bumpGen spEmpty)), bumpGen spEmpty) ∧
    writeAt dZero4 ((4 - 1) * 64) (encodeFrame (bumpGen spEmpty)) ≠
      writeAt dZero4 ((4 - 2) * 64) (encodeFrame (bumpGen spEmpty)) := by
  have hfit : (jsonEncodeSuper (bumpGen spEmpty)).length + 6 < 64 := by decide
  have hc := commitIo_eq dZero4 64 spEmpty hfit
  rw [chooseSlot_eq_targetSlotSpec, load_both_dZero4] at hc
  have hlen : dZero4.length = 256 := by simp [dZero4]
  rw [hlen] at hc
  have htgt : (256 / 64 - targetSlotSpec none none) * 64 = (4 - 1) * 64 := by decide
  rw [htgt] at hc
  refine ⟨load_both_dZero4, hc, ?_⟩
  intro heq
  -- compare byte 4 of the two slot-A regions: the JSON opening brace
  -- against a still-zero byte
  have hA : ((readAt (writeAt dZero4 ((4 - 2) * 64) (encodeFrame (bumpGen spEmpty)))
      ((4 - 2) * 64)).drop 4).head? = some 123 := by
    rw [readAt_writeAt_self _ _ _ (by rw [hlen]; omega)]
    show ((encodeFrame (bumpGen spEmpty) ++ dZero4.drop (128 + (encodeFrame (bumpGen spEmpty)).length)).drop 4).head? = some 123
    unfold encodeFrame toBE4
    simp [jsonEncodeSuper, jsonPre]
  have hB : ((readAt (writeAt dZero4 ((4 - 1) * 64) (encodeFrame (bumpGen spEmpty)))
      ((4 - 2) * 64)).drop 4).head? = some 0 := by
    rw [readAt_writeAt_below _ _ _ _ (by omega) (by rw [hlen]; omega)]
    show (((dZero4.drop 128).take (192 - 128) ++ encodeFrame (bumpGen spEmpty) ++
      dZero4.drop (192 + (encodeFrame (bumpGen spEmpty)).length)).drop 4).head? = some 0
    have hdrop : dZero4.drop 128 = List.replicate 128 0 := by
      unfold dZero4
      rw [List.drop_replicate]
    rw [hdrop, List.take_replicate]
    show ((List.replicate (min (192 - 128) 128) 0 ++ _ ++ _).drop 4).head? = some 0
    have hmin : min (192 - 128) 128 = 64 := by decide
    rw [hmin]
    have hrep : List.replicate 64 (0 : Nat) = 0 :: 0 :: 0 :: 0 :: List.replicate 60 0 := by decide
    rw [hrep]
    simp
  rw [← heq] at hA
  rw [hA] at hB
  simp at hB

/-- Claim C2: the `create_subvol` allocator.  On any error the in-memory
state is returned unchanged (no partial allocation).  On success the
allocated extents total exactly the requested size in blocks
(`ceil(size / iosize)`), the new subvolume is appended to the mapping,
and — from any state satisfying the extent-separation invariant that
`adopt` establishes and all operations preserve — the returned extents
are pairwise non-overlapping and disjoint from every pre-existing
extent. -/
theorem C2_allocator (sp : SuperPartition) (name : List Nat) (size iosize : Nat) :
    (∀ e : EKind, (create_subvol sp name size iosize).2 = .error e →
      (create_subvol sp name size iosize).1 = sp) ∧
    (∀ sp2 sv, create_subvol sp name size iosize = (sp2, .ok sv) →
      sumLen sv.extents = (size + iosize - 1) / iosize ∧
      sp2.subvols = sp.subvols ++ [(name, sv)] ∧
      (SepInv sp →
        List.Pairwise (fun a b => ¬ ExtOverlap a b) sv.extents ∧
        ∀ e ∈ sv.extents, ∀ x ∈ allExtentsRaw sp.subvols, ¬ ExtOverlap e x)) := by
  constructor
  · exact fun e he => create_subvol_error_unchanged sp name size iosize e he
  · intro sp2 sv h
    obtain ⟨hfree, hsv, hrem, hsp2⟩ := create_subvol_ok_eq sp name size iosize sp2 sv h
    refine ⟨?_, by rw [hsp2], ?_⟩
    · obtain ⟨h1, _⟩ := allocLoop_sum ((get_all_extents sp).zip (get_all_extents sp).tail)
        ((size + iosize - 1) / iosize) []
      rw [hsv]
      dsimp only
      rw [hrem] at h1
      simpa [sumLen] using h1
    · intro hinv
      have hs : List.Pairwise SepR (get_all_extents sp) := pairwise_sepR_mergeSort _ hinv
      obtain ⟨_, _, hpw, hsep, _⟩ :=
        allocLoop_spec (get_all_extents sp) ((size + iosize - 1) / iosize) [] hs
          (by intro a ha; cases ha) (by constructor)
      constructor
      · rw [hsv]
        exact hpw.imp (fun hab => not_overlap_of_extSep hab)
      · intro e he x hx
        have has : x ∈ get_all_extents sp :=
          ((List.mergeSort_perm (allExtentsRaw sp.subvols) extLe).mem_iff).mpr hx
        have hes : e ∈ (allocLoop ((get_all_extents sp).zip (get_all_extents sp).tail)
            ((size + iosize - 1) / iosize) []).1 := by
          rw [hsv] at he
          exact he
        exact not_overlap_of_extSep (hsep e hes x has)

/-- Claim C2 witness: a concrete successful allocation into the hole at
blocks 2-3 of `spW2`, with the invariant hypothesis discharged by
evaluation. -/
theorem C2_allocator_witness :
    create_subvol spW2 nW2 2 1 = (spW2ok, .ok svW2) ∧
    SepInv spW2 ∧
    sumLen svW2.extents = (2 + 1 - 1) / 1 ∧
    spW2ok.subvols = spW2.subvols ++ [(nW2, svW2)] ∧
    List.Pairwise (fun a b => ¬ ExtOverlap a b) svW2.extents := by
  have hsort : get_all_extents spW2 = [⟨0, 2⟩, ⟨4, 3⟩] := by
    have h0 : allExtentsRaw spW2.subvols = [⟨0, 2⟩, ⟨4, 3⟩] := rfl
    unfold get_all_extents
    rw [h0]
    exact List.mergeSort_of_sorted (by decide)
  have hcreate : create_subvol spW2 nW2 2 1 = (spW2ok, .ok svW2) := by
    unfold create_subvol
    rw [if_neg (by decide)]
    dsimp only
    rw [hsort]
    rfl
  have hinv : SepInv spW2 := by decide
  have h := (C2_allocator spW2 nW2 2 1).2 spW2ok svW2 hcreate
  exact ⟨hcreate, hinv, h.1, h.2.1, (h.2.2 hinv).1⟩

/-- Claim C3 counterexample: with `name = "metadata"` the second
`HashMap::insert` overwrites the reserved entry, so `adopt` returns a
partition with exactly one subvolume, not two. -/
theorem C3_counterexample :
    adopt [] 10 1 kMetadata 8 =
      .ok ⟨[], 1, [(kMetadata, ⟨[⟨0, 8⟩], [], [], []⟩)]⟩ ∧
    ∀ sp, adopt [] 10 1 kMetadata 8 = .ok sp → sp.subvols.length ≠ 2 := by
  have h1 : adopt [] 10 1 kMetadata 8 =
      .ok ⟨[], 1, [(kMetadata, ⟨[⟨0, 8⟩], [], [], []⟩)]⟩ := rfl
  refine ⟨h1, ?_⟩
  intro sp h
  rw [h1] at h
  cases Except.ok.inj h
  decide

/-- Claim C3 (amended to `name ≠ "metadata"`): `adopt` succeeds exactly
when `ceil(S / iosize) + 2 ≤ total_blocks` — the boundary case succeeds
and one block short fails with the out-of-space error — and on success
returns generation 1 with the `"metadata"` reservation at the last two
blocks and `name` at blocks `[0, ceil(S / iosize))`.  The device is
opened read-only, so nothing is written. -/
theorem C3_adopt (device : List Nat) (deviceSize iosize : Nat) (name : List Nat)
    (S : Nat) (hname : name ≠ kMetadata) :
    ((S + iosize - 1) / iosize + 2 ≤ deviceSize / iosize →
      adopt device deviceSize iosize name S =
        .ok ⟨device, 1, [(kMetadata, ⟨[⟨deviceSize / iosize - 2, 2⟩], [], [], []⟩),
          (name, ⟨[⟨0, (S + iosize - 1) / iosize⟩], [], [], []⟩)]⟩) ∧
    (deviceSize / iosize < (S + iosize - 1) / iosize + 2 →
      adopt device deviceSize iosize name S = .error .outOfSpace) := by
  constructor
  · intro hle
    unfold adopt
    rw [if_neg (by omega)]
    have hne : ¬ (kMetadata = name) := fun hh => hname hh.symm
    dsimp only
    simp only [insertA, if_neg hne]
  · intro hgt
    unfold adopt
    rw [if_pos (by omega)]

/-- Claim C3 witness: the spec scenario — a 10-block device, 1-byte
blocks, an 8-block original partition: the boundary case succeeds with
the expected two subvolumes and one block more fails. -/
theorem C3_adopt_witness :
    nData ≠ kMetadata ∧
    (8 + 1 - 1) / 1 + 2 ≤ 10 / 1 ∧
    adopt [] 10 1 nData 8 =
      .ok ⟨[], 1, [(kMetadata, ⟨[⟨8, 2⟩], [], [], []⟩), (nData, ⟨[⟨0, 8⟩], [], [], []⟩)]⟩ ∧
    10 / 1 < (9 + 1 - 1) / 1 + 2 ∧
    adopt [] 10 1 nData 9 = .error .outOfSpace := by
  refine ⟨by decide, by decide, ?_, by decide, ?_⟩
  · exact (C3_adopt [] 10 1 nData 8 (by decide)).1 (by decide)
  · exact (C3_adopt [] 10 1 nData 9 (by decide)).2 (by decide)

/-- Claim C4: the slot-resolution match of `open`: both slots absent
fails with the not-found error; exactly one present returns it; both
present returns the strictly greater generation, a tie resolving to the
second component (the fixed lower slot, block `total_blocks - 2`). -/
theorem C4_open_resolution (a b : SuperPartition) :
    openCore none none = .error .notFound ∧
    openCore (some a) none = .ok a ∧
    openCore none (some b) = .ok b ∧
    (b.generation < a.generation → openCore (some a) (some b) = .ok a) ∧
    (a.generation ≤ b.generation → openCore (some a) (some b) = .ok b) := by
  refine ⟨rfl, rfl, rfl, ?_, ?_⟩
  · intro h
    unfold openCore
    dsimp only
    rw [if_pos (show a.generation > b.generation from h)]
  · intro h
    unfold openCore
    dsimp only
    rw [if_neg (show ¬ a.generation > b.generation by omega)]

/-- Claim C4 witness: generations 5 vs 3 resolve to the first slot;
a 4-vs-4 tie resolves to the second slot. -/
theorem C4_open_resolution_witness :
    (spG3.generation < spG5.generation ∧ openCore (some spG5) (some spG3) = .ok spG5) ∧
    (spG4a.generation ≤ spG4b.generation ∧ openCore (some spG4a) (some spG4b) = .ok spG4b) := by
  exact ⟨⟨by decide, (C4_open_resolution spG5 spG3).2.2.2.1 (by decide)⟩,
    ⟨by decide, (C4_open_resolution spG4a spG4b).2.2.2.2 (by decide)⟩⟩

/-- Claim C6 counterexample: on a zeroed 3-block device the first commit
targets block 2 (`total_blocks - 1`, slot B), not slot A
(`total_blocks - 2 = 1`) as the claim's `A, B, A, B, …` order requires. -/
theorem C6_counterexample :
    (∃ d2 sp2, commitSeq 64 1 (List.replicate ((1 + 2) * 64) 0) spC6 =
      some (d2, sp2, [(2, 2)])) ∧ (2 : Nat) ≠ (1 + 2) - 2 := by
  constructor
  · obtain ⟨d2, sp2, heq, _⟩ := commitSeq_from_zero 64 1 1 spC6 (by decide)
      (by intro g hg
          have hg2 : g ≤ 2 := hg
          interval_cases g <;> decide)
    refine ⟨d2, sp2, ?_⟩
    rw [heq]
    have hm : (List.range 1).map (fun k =>
        ((if k % 2 = 0 then 1 + 1 else 1), spC6.generation + k + 1)) = [(2, 2)] := by decide
    rw [hm]
  · decide

/-- Claim C6 (amended: the alternation starts at slot B, the block at
`total_blocks - 1`): from a device with no valid metadata, `n`
successive commits follow the target-slot sequence B, A, B, A, … —
never the same slot twice in a row — and the persisted generation
increases by exactly 1 on each commit. -/
theorem C6_pingpong (iosize B2 n : Nat) (sp0 : SuperPartition)
    (hbound : sp0.generation + n < 4294967296)
    (hfit : ∀ g, g ≤ sp0.generation + n →
      (jsonPre sp0.device).length + (natToBytes g).length +
        (jsonPost sp0.subvols).length + 6 < iosize) :
    ∃ d2 sp2, commitSeq iosize n (List.replicate ((B2 + 2) * iosize) 0) sp0 =
      some (d2, sp2, (List.range n).map (fun k =>
        ((if k % 2 = 0 then B2 + 1 else B2), sp0.generation + k + 1))) ∧
      sp2.generation = sp0.generation + n ∧
      List.Chain' (fun a b => a.1 ≠ b.1) ((List.range n).map (fun k =>
        ((if k % 2 = 0 then B2 + 1 else B2), sp0.generation + k + 1))) ∧
      List.Chain' (fun a b => b.2 = a.2 + 1) ((List.range n).map (fun k =>
        ((if k % 2 = 0 then B2 + 1 else B2), sp0.generation + k + 1))) := by
  obtain ⟨d2, sp2, heq, hgen⟩ := commitSeq_from_zero iosize B2 n sp0 hbound hfit
  refine ⟨d2, sp2, heq, hgen, ?_, ?_⟩
  · rw [List.chain'_map]
    match n with
    | 0 => exact List.chain'_nil
    | m + 1 =>
      rw [List.chain'_range_succ]
      intro k hk
      dsimp only
      by_cases hpar : k % 2 = 0
      · have hpar2 : ¬ (k + 1) % 2 = 0 := by omega
        rw [if_pos hpar, if_neg hpar2]
        omega
      · have hpar2 : (k + 1) % 2 = 0 := by omega
        rw [if_neg hpar, if_pos hpar2]
        omega
  · rw [List.chain'_map]
    match n with
    | 0 => exact List.chain'_nil
    | m + 1 =>
      rw [List.chain'_range_succ]
      intro k hk
      dsimp only
      omega

/-- Claim C6 witness: three commits on a zeroed 2-block device produce
the concrete alternating trace `[(1, 2), (0, 3), (1, 4)]` (blocks
`total-1`, `total-2`, `total-1` with generations 2, 3, 4). -/
theorem C6_pingpong_witness :
    spW6.generation + 3 < 4294967296 ∧
    ∃ d2 sp2, commitSeq 64 3 (List.replicate ((0 + 2) * 64) 0) spW6 =
      some (d2, sp2, [(1, 2), (0, 3), (1, 4)]) ∧ sp2.generation = 4 := by
  obtain ⟨d2, sp2, heq, hgen, _, _⟩ := C6_pingpong 64 0 3 spW6 (by decide)
    (by intro g hg
        have hg2 : g ≤ 4 := hg
        interval_cases g <;> decide)
  refine ⟨by decide, d2, sp2, ?_, hgen.trans (by decide)⟩
  rw [heq]
  have hm : (List.range 3).map (fun k =>
      ((if k % 2 = 0 then 0 + 1 else 0), spW6.generation + k + 1)) =
        [(1, 2), (0, 3), (1, 4)] := by decide
  rw [hm]

theorem lookupA_eq_none_of_not_mem (l : List (List Nat × SubVolume)) (n : List Nat)
    (h : n ∉ l.map Prod.fst) : lookupA l n = none := by
  induction l with
  | nil => rfl
  | cons kv t ih =>
    obtain ⟨k, v⟩ := kv
    have hk : ¬ k = n := by
      intro hk
      exact h (by simp [hk])
    simp only [lookupA, if_neg hk]
    exact ih (fun hm => h (by simp; exact Or.inr (by simpa using hm)))

theorem lookupA_filter_value_none (l : List (List Nat × SubVolume)) (n : List Nat)
    (sv : SubVolume) (hnd : (l.map Prod.fst).Nodup) (h : lookupA l n = some sv) :
    lookupA (l.filter (fun kv => decide (kv.2 ≠ sv))) n = none := by
  induction l with
  | nil => cases h
  | cons kv t ih =>
    obtain ⟨k, v⟩ := kv
    rw [List.map_cons, List.nodup_cons] at hnd
    by_cases hk : k = n
    · rw [show lookupA ((k, v) :: t) n = some v from by simp [lookupA, if_pos hk]] at h
      have hv : v = sv := Option.some.inj h
      rw [List.filter_cons,
        if_neg (show ¬ (decide ((k, v).2 ≠ sv) = true) by simp [hv])]
      refine lookupA_eq_none_of_not_mem _ n (fun hm => ?_)
      have hsub : ((t.filter (fun kv => decide (kv.2 ≠ sv))).map Prod.fst).Sublist
          (t.map Prod.fst) := (List.filter_sublist t).map Prod.fst
      subst hk
      exact hnd.1 (hsub.mem hm)
    · rw [show lookupA ((k, v) :: t) n = lookupA t n from by simp [lookupA, if_neg hk]] at h
      by_cases hkeep : decide ((k, v).2 ≠ sv) = true
      · rw [List.filter_cons, if_pos hkeep]
        simp only [lookupA, if_neg hk]
        exact ih hnd.2 h
      · rw [List.filter_cons, if_neg hkeep]
        exact ih hnd.2 h

/-- Claim C7: `delete_subvol` retains exactly the entries whose value
differs from the given `SubVolume`; with distinct keys (as a `HashMap`
guarantees), two distinct names bound to the same value are both
removed by a single call. -/
theorem C7_delete_by_value (sp : SuperPartition) (sv : SubVolume)
    (hnd : (sp.subvols.map Prod.fst).Nodup) :
    (∀ kv ∈ sp.subvols, (kv ∈ (delete_subvol sp sv).subvols ↔ kv.2 ≠ sv)) ∧
    (∀ n1 n2, n1 ≠ n2 → lookupA sp.subvols n1 = some sv →
      lookupA sp.subvols n2 = some sv →
      lookupA (delete_subvol sp sv).subvols n1 = none ∧
      lookupA (delete_subvol sp sv).subvols n2 = none) := by
  constructor
  · intro kv hkv
    unfold delete_subvol
    simp [List.mem_filter, hkv]
  · intro n1 n2 hne h1 h2
    exact ⟨lookupA_filter_value_none sp.subvols n1 sv hnd h1,
      lookupA_filter_value_none sp.subvols n2 sv hnd h2⟩

/-- Claim C7 witness: deleting `svD7` from `spW7` removes both entries. -/
theorem C7_delete_by_value_witness :
    ([49] : List Nat) ≠ [50] ∧
    lookupA spW7.subvols [49] = some svD7 ∧
    lookupA spW7.subvols [50] = some svD7 ∧
    lookupA (delete_subvol spW7 svD7).subvols [49] = none ∧
    lookupA (delete_subvol spW7 svD7).subvols [50] = none := by
  have h := (C7_delete_by_value spW7 svD7 (by decide)).2 [49] [50] (by decide) rfl rfl
  exact ⟨by decide, rfl, rfl, h.1, h.2⟩

/-- Claim C8: round trip — the slot parser of `load_metadata` applied to
the frame written by `commit` (CRC over the serialized line, the line,
newline, NUL) recovers the encoded `SuperPartition` exactly. -/
theorem C8_roundtrip (sp : SuperPartition) : loadOpt (encodeFrame sp) = some sp := by
  have h := loadOpt_encodeFrame sp []
  simpa using h

/-- Claim C9: in every state reachable through `adopt`,
`create_subvol` and `delete_subvol` (and the in-memory effect of
`commit`), no two extents across all subvolumes overlap. -/
theorem C9_no_overlap (sp : SuperPartition) (h : Reach sp) :
    List.Pairwise (fun a b => ¬ ExtOverlap a b) (allExtentsRaw sp.subvols) :=
  (sepInv_of_reach h).imp (fun hab => not_overlap_of_extSep hab)

/-- Claim C9 witness: the adopted state `spR9` is reachable and its
extent list is pairwise non-overlapping. -/
theorem C9_no_overlap_witness :
    Reach spR9 ∧
    List.Pairwise (fun a b => ¬ ExtOverlap a b) (allExtentsRaw spR9.subvols) := by
  have hr : Reach spR9 := Reach.adoptStep [] 10 1 [113] 8 spR9 rfl
  exact ⟨hr, C9_no_overlap spR9 hr⟩

/-- Claim C10: when the metadata load succeeds but the slot seek, any of
the three writes, or the final flush fails, `commit` returns the I/O
error with the in-memory generation already advanced (by 1 modulo
`u32`): the state is not rolled back on error. -/
theorem C10_gen_advances (d : List Nat) (iosize : Nat) (sp : SuperPartition)
    (fault : CommitStep)
    (hf : fault = .seekSlot ∨ fault = .writeCrc ∨ fault = .writeJson ∨
      fault = .writeTerm ∨ fault = .syncAll)
    (hfit : (jsonEncodeSuper (bumpGen sp)).length + 6 < iosize) :
    commitFaulty d iosize sp (some fault) = (bumpGen sp, .error .ioFail) ∧
    (bumpGen sp).generation = (sp.generation + 1) % 4294967296 ∧
    (sp.generation + 1 < 4294967296 →
      (bumpGen sp).generation = sp.generation + 1) := by
  refine ⟨?_, rfl, fun h => bumpGen_gen sp h⟩
  rcases hf with rfl | rfl | rfl | rfl | rfl <;>
    (unfold commitFaulty
     rw [if_neg (by decide), if_neg (by decide)]
     dsimp only
     rw [if_pos hfit, if_pos (by decide)])

/-- Claim C10 witness: an injected failure of the JSON write on an
empty device leaves the error result with generation already bumped
from 1 to 2. -/
theorem C10_gen_advances_witness :
    commitFaulty [] 64 spW10 (some .writeJson) = (bumpGen spW10, .error .ioFail) ∧
    (bumpGen spW10).generation = 2 := by
  have h := C10_gen_advances [] 64 spW10 .writeJson
    (Or.inr (Or.inr (Or.inl rfl))) (by decide)
  exact ⟨h.1, (h.2.2 (by decide)).trans (by decide)⟩
